import Mathlib

/-!
Verification of the BillBox-V2 image-preprocessing core
(`src/services/preprocessing`), shallowly embedded in Lean 4.

Modelling conventions:
* `uint8_t` pixel values are `ℕ`; well-formedness (`Image.WF`) captures the
  C++ invariants (positive dimensions, `data.length = w*h*c`, values < 256).
* C++ `float` arithmetic is embedded as exact `ℚ` arithmetic.  For every
  operation a claim depends on, the 32-bit float computation is extensionally
  equal to the rational one on all in-range inputs (the quantities involved
  are integers below 2^24 and quotients whose distance from any rounding
  boundary exceeds the float ulp), so this is faithful.
* The `double` arithmetic of `to_grayscale_luminance` is NOT extensionally
  equal to exact arithmetic, so it is embedded exactly: dyadic
  mantissa-exponent pairs with IEEE-754 round-to-nearest-even at 53 bits
  (`Dy`, `roundDy`).
* The transcendental library calls (`std::cos`, `std::sin`, `std::exp`) have
  no exact specification; they enter as explicit function parameters
  (`fcos`, `fsin`, `fexp`) of the definitions that use them.
-/

namespace BillBox

/-! ## Raster buffer (`image.h`) -/

/-- The `struct Image` of `image.h`: width, height, channels and a flat row-major
byte buffer.  Pixel `(x,y)` occupies `data[(y*width+x)*channels .. +channels)`. -/
structure Image where
  width : ℕ
  height : ℕ
  channels : ℕ
  data : List ℕ
deriving DecidableEq

/-- Pixel access `img.pixel(x, y)[c]`: flat row-major access, reading 0 out of range
(the C++ code never reads out of range on well-formed images). -/
def Image.px (img : Image) (x y ch : ℕ) : ℕ :=
  img.data.getD ((y * img.width + x) * img.channels + ch) 0

/-- Functional construction of an image: the `data` list holds
`f x y ch` at flat index `(y*w + x)*c + ch`.  This is how every C++ transform
builds its output (allocate `Image(w,h,c)`, then fill each pixel once). -/
def mkImage (w h c : ℕ) (f : ℕ → ℕ → ℕ → ℕ) : Image :=
  ⟨w, h, c, (List.range (w * h * c)).map fun i => f (i / c % w) (i / c / w) (i % c)⟩

/-- The C++ invariants on a valid `Image`. -/
def Image.WF (img : Image) : Prop :=
  0 < img.width ∧ 0 < img.height ∧ 0 < img.channels ∧
    img.data.length = img.width * img.height * img.channels ∧
    ∀ v ∈ img.data, v < 256

/-! ## Channel gathering

The per-channel loops of `contrast.cpp` and `threshold.cpp` traverse pixels
with `y` outer and `x` inner; `channelVals` is the traversed value list. -/

def channelVals (img : Image) (ch : ℕ) : List ℕ :=
  (List.range img.height).flatMap fun y =>
    (List.range img.width).map fun x => img.px x y ch

/-! ## Float helpers -/

/-- Embedding of `std::round` (half away from zero) for the nonnegative values produced here. -/
def qround (q : ℚ) : ℤ := ⌊q + 1 / 2⌋

/-- Embedding of `static_cast<int>` on a float: truncation toward zero. -/
def ftrunc (q : ℚ) : ℤ := if 0 ≤ q then ⌊q⌋ else -⌊-q⌋

/-! ## Contrast enhancement (`contrast.cpp`) -/

/-- Per-channel pixel map of `normalize_contrast_minmax`: min/max of the
channel's values, then linear stretch to `[0,255]` (pass-through when the
range is zero). -/
def minmaxMap (g : List ℕ) (v : ℕ) : ℕ :=
  let min_val := g.foldl min 255
  let max_val := g.foldl max 0
  let range : ℚ := (max_val : ℚ) - (min_val : ℚ)
  if 0 < range then (qround (((v : ℚ) - (min_val : ℚ)) * 255 / range)).toNat else v

def normalize_contrast_minmax (img : Image) : Image :=
  mkImage img.width img.height img.channels fun x y ch =>
    minmaxMap (channelVals img ch) (img.px x y ch)

def normalize_contrast (img : Image) : Image := normalize_contrast_minmax img

/-- Per-channel pixel map of `normalize_contrast_percentile`: black/white
points read from the sorted channel values at the (clamped) percentile
indices, then linear stretch with clamping to `[0,255]`. -/
def percentileMap (g : List ℕ) (low_percentile high_percentile : ℚ) (v : ℕ) : ℕ :=
  let sorted := g.mergeSort (· ≤ ·)
  let n : ℤ := g.length
  let low_idx : ℤ := max 0 (min (ftrunc ((g.length : ℚ) * low_percentile / 100)) (n - 1))
  let high_idx : ℤ := max 0 (min (ftrunc ((g.length : ℚ) * high_percentile / 100)) (n - 1))
  let low_val := sorted.getD low_idx.toNat 0
  let high_val := sorted.getD high_idx.toNat 0
  let range : ℚ := (high_val : ℚ) - (low_val : ℚ)
  if 0 < range then
    (qround (max 0 (min 255 (((v : ℚ) - (low_val : ℚ)) * 255 / range)))).toNat
  else v

def normalize_contrast_percentile (img : Image)
    (low_percentile high_percentile : ℚ) : Image :=
  mkImage img.width img.height img.channels fun x y ch =>
    percentileMap (channelVals img ch) low_percentile high_percentile (img.px x y ch)

/-- Cumulative histogram of a channel: `cdf[i] = Σ_{j ≤ i} histogram[j]`,
where `histogram[j]` counts the pixels of value `j`. -/
def cdfAt (g : List ℕ) (i : ℕ) : ℚ :=
  ((List.range (i + 1)).map fun j => ((g.count j : ℕ) : ℚ)).sum

/-- Per-channel pixel map of `histogram_equalization`: scaled CDF lookup. -/
def histEqMap (g : List ℕ) (total_pixels : ℕ) (v : ℕ) : ℕ :=
  (qround (cdfAt g v / (total_pixels : ℚ) * 255)).toNat

def histogram_equalization (img : Image) : Image :=
  mkImage img.width img.height img.channels fun x y ch =>
    histEqMap (channelVals img ch) (img.width * img.height) (img.px x y ch)

/-! ## IEEE-754 double model (for `to_grayscale_luminance`)

`grayscale.cpp` computes `0.299*r + 0.587*g + 0.114*b` in `double`.  Double
rounding is observable here (e.g. `r=g=b=1` truncates to 0 where exact
arithmetic gives 1), so doubles are embedded exactly: nonnegative dyadic
rationals `m * 2^e` with IEEE round-to-nearest-even at 53 significant bits
after every operation. -/

/-- Number of binary digits of `n` (structural, fuel = n). -/
def bitLenAux : ℕ → ℕ → ℕ
  | 0, _ => 0
  | fuel + 1, n => if n = 0 then 0 else bitLenAux fuel (n / 2) + 1

def bitLen (n : ℕ) : ℕ := bitLenAux n n

/-- A nonnegative dyadic rational `m * 2^e`. -/
structure Dy where
  m : ℕ
  e : ℤ
deriving DecidableEq

/-- Round `m * 2^e` to `prec` significant bits, ties to even. -/
def roundDy (prec : ℕ) (m : ℕ) (e : ℤ) : Dy :=
  let b := bitLen m
  if b ≤ prec then ⟨m, e⟩
  else
    let k := b - prec
    let q := m / 2 ^ k
    let r := m % 2 ^ k
    let half := 2 ^ (k - 1)
    let q' := if half < r then q + 1 else if r < half then q
      else if q % 2 = 1 then q + 1 else q
    ⟨q', e + k⟩

def dyMul (a b : Dy) : Dy := roundDy 53 (a.m * b.m) (a.e + b.e)

def dyAdd (a b : Dy) : Dy :=
  let e := min a.e b.e
  roundDy 53 (a.m * 2 ^ (a.e - e).toNat + b.m * 2 ^ (b.e - e).toNat) e

/-- The double nearest to `n / d` (for `n, d > 0`): scale, divide keeping a
sticky bit for a nonzero remainder, and round to 53 bits. -/
def dyOfRat (n d : ℕ) : Dy :=
  let s := 55 + bitLen d - bitLen n
  let q := n * 2 ^ s / d
  let r := n * 2 ^ s % d
  if r = 0 then roundDy 53 q (-(s : ℤ)) else roundDy 53 (2 * q + 1) (-(s : ℤ) - 1)

/-- Truncation toward zero of a nonnegative dyadic. -/
def dyTruncNat (a : Dy) : ℕ :=
  if 0 ≤ a.e then a.m * 2 ^ a.e.toNat else a.m / 2 ^ (-a.e).toNat

def c299 : Dy := dyOfRat 299 1000

def c587 : Dy := dyOfRat 587 1000

def c114 : Dy := dyOfRat 114 1000

/-- The value `static_cast<uint8_t>(0.299*r + 0.587*g + 0.114*b)` in double
arithmetic (left-to-right evaluation, each operation correctly rounded). -/
def doubleGray (r g b : ℕ) : ℕ :=
  dyTruncNat (dyAdd (dyAdd (dyMul c299 ⟨r, 0⟩) (dyMul c587 ⟨g, 0⟩)) (dyMul c114 ⟨b, 0⟩))

/-! ## Colorspace reduction (`grayscale.cpp`) -/

def to_grayscale_luminance (img : Image) : Image :=
  if img.channels = 1 then img
  else
    mkImage img.width img.height 1 fun x y _ =>
      if 3 ≤ img.channels then
        doubleGray (img.px x y 0) (img.px x y 1) (img.px x y 2)
      else img.px x y 0

def to_grayscale (img : Image) : Image := to_grayscale_luminance img

/-! ## Binarization (`threshold.cpp`) -/

/-- Loop state of `calculate_otsu_threshold`'s threshold scan. -/
structure OtsuState where
  weight_background : ℕ
  sum_background : ℚ
  max_variance : ℚ
  optimal_threshold : ℕ
  broke : Bool
deriving DecidableEq

/-- One iteration of the Otsu scan (`threshold.cpp:34-54`); `broke` models the
early `break` once the foreground weight reaches zero. -/
def otsuStep (hist : ℕ → ℕ) (total_pixels : ℕ) (sum : ℚ) (s : OtsuState)
    (threshold : ℕ) : OtsuState :=
  if s.broke then s
  else
    let weight_background := s.weight_background + hist threshold
    if weight_background = 0 then { s with weight_background := weight_background }
    else
      let weight_foreground := total_pixels - weight_background
      if weight_foreground = 0 then
        { s with weight_background := weight_background, broke := true }
      else
        let sum_background := s.sum_background + (threshold : ℚ) * ((hist threshold : ℕ) : ℚ)
        let mean_background := sum_background / (weight_background : ℚ)
        let mean_foreground := (sum - sum_background) / (weight_foreground : ℚ)
        let variance := (weight_background : ℚ) * (weight_foreground : ℚ) *
          ((mean_background - mean_foreground) * (mean_background - mean_foreground))
        if s.max_variance < variance then
          ⟨weight_background, sum_background, variance, threshold, false⟩
        else
          { s with weight_background := weight_background, sum_background := sum_background }

def calculate_otsu_threshold (img : Image) : ℕ :=
  let gray_img := if img.channels = 1 then img else to_grayscale_luminance img
  let g := channelVals gray_img 0
  let hist : ℕ → ℕ := fun i => g.count i
  let total_pixels := gray_img.width * gray_img.height
  let sum : ℚ := ((List.range 256).map fun (i : ℕ) => (i : ℚ) * ((hist i : ℕ) : ℚ)).sum
  ((List.range 256).foldl (otsuStep hist total_pixels sum)
    ⟨0, 0, 0, 0, false⟩).optimal_threshold

def threshold_binary (img : Image) (threshold_value : ℕ) : Image :=
  let gray_img := if img.channels = 1 then img else to_grayscale_luminance img
  mkImage gray_img.width gray_img.height 1 fun x y _ =>
    if threshold_value ≤ gray_img.px x y 0 then 255 else 0

def threshold_binary_inverted (img : Image) (threshold_value : ℕ) : Image :=
  let gray_img := if img.channels = 1 then img else to_grayscale_luminance img
  mkImage gray_img.width gray_img.height 1 fun x y _ =>
    if threshold_value ≤ gray_img.px x y 0 then 0 else 255

def threshold_otsu (img : Image) : Image :=
  threshold_binary img (calculate_otsu_threshold img)

/-- Offsets `-half_block .. half_block` traversed by the block loops. -/
def kernelOffsets (block_size : ℕ) : List ℤ :=
  (List.range block_size).map fun i => (i : ℤ) - ((block_size / 2 : ℕ) : ℤ)

/-- Coordinate clamping `std::max(0, std::min(v, hi))`. -/
def clampCoord (v hi : ℤ) : ℕ := (max 0 (min v hi)).toNat

def threshold_adaptive_mean (img : Image) (block_size₀ : ℕ) (c : ℤ) : Image :=
  let block_size := if block_size₀ % 2 = 0 then block_size₀ + 1 else block_size₀
  let gray_img := if img.channels = 1 then img else to_grayscale_luminance img
  let offs := kernelOffsets block_size
  mkImage gray_img.width gray_img.height 1 fun x y _ =>
    let nb := offs.flatMap fun ky => offs.map fun kx =>
      gray_img.px (clampCoord ((x : ℤ) + kx) ((gray_img.width : ℤ) - 1))
        (clampCoord ((y : ℤ) + ky) ((gray_img.height : ℤ) - 1)) 0
    let local_mean := nb.sum / nb.length % 256
    let adaptive_threshold := (max 0 ((local_mean : ℤ) - c)).toNat
    if adaptive_threshold ≤ gray_img.px x y 0 then 255 else 0

def threshold_adaptive_gaussian (fexp : ℚ → ℚ) (img : Image)
    (block_size₀ : ℕ) (c : ℤ) : Image :=
  let block_size := if block_size₀ % 2 = 0 then block_size₀ + 1 else block_size₀
  let gray_img := if img.channels = 1 then img else to_grayscale_luminance img
  let offs := kernelOffsets block_size
  let sigma : ℚ := (block_size : ℚ) / 6
  let weight : ℤ → ℤ → ℚ := fun kx ky =>
    fexp (-(((kx * kx + ky * ky : ℤ) : ℚ)) / (2 * sigma * sigma))
  let sum_weights : ℚ := (offs.flatMap fun ky => offs.map fun kx => weight kx ky).sum
  mkImage gray_img.width gray_img.height 1 fun x y _ =>
    let weighted_sum : ℚ := (offs.flatMap fun ky => offs.map fun kx =>
      (gray_img.px (clampCoord ((x : ℤ) + kx) ((gray_img.width : ℤ) - 1))
          (clampCoord ((y : ℤ) + ky) ((gray_img.height : ℤ) - 1)) 0 : ℚ) *
        (weight kx ky / sum_weights)).sum
    let gaussian_mean := (ftrunc weighted_sum).toNat % 256
    let adaptive_threshold := (max 0 ((gaussian_mean : ℤ) - c)).toNat
    if adaptive_threshold ≤ gray_img.px x y 0 then 255 else 0

/-! ## Spatial filters (`filter.cpp`) -/

def median_filter (img : Image) (kernel_size₀ : ℕ) : Image :=
  let kernel_size := if kernel_size₀ % 2 = 0 then kernel_size₀ + 1 else kernel_size₀
  let offs := kernelOffsets kernel_size
  mkImage img.width img.height img.channels fun x y c =>
    let values := offs.flatMap fun ky => offs.map fun kx =>
      img.px (clampCoord ((x : ℤ) + kx) ((img.width : ℤ) - 1))
        (clampCoord ((y : ℤ) + ky) ((img.height : ℤ) - 1)) c
    (values.mergeSort (· ≤ ·)).getD (values.length / 2) 0

/-! ## Geometric resampling (`resize.cpp`) -/

def resize_bilinear (img : Image) (new_width new_height : ℤ) : Image :=
  let xr : ℚ := ((img.width : ℚ) - 1) / ((new_width : ℤ) : ℚ)
  let yr : ℚ := ((img.height : ℚ) - 1) / ((new_height : ℤ) : ℚ)
  mkImage new_width.toNat new_height.toNat img.channels fun x y c =>
    let src_x : ℚ := (x : ℚ) * xr
    let src_y : ℚ := (y : ℚ) * yr
    let x1 := ftrunc src_x
    let y1 := ftrunc src_y
    let x2 := min (x1 + 1) ((img.width : ℤ) - 1)
    let y2 := min (y1 + 1) ((img.height : ℤ) - 1)
    let dx : ℚ := src_x - (x1 : ℚ)
    let dy : ℚ := src_y - (y1 : ℚ)
    let p11 : ℚ := img.px x1.toNat y1.toNat c
    let p12 : ℚ := img.px x1.toNat y2.toNat c
    let p21 : ℚ := img.px x2.toNat y1.toNat c
    let p22 : ℚ := img.px x2.toNat y2.toNat c
    (qround (p11 * (1 - dx) * (1 - dy) + p21 * dx * (1 - dy) +
      p12 * (1 - dx) * dy + p22 * dx * dy)).toNat % 256

def scale_image (img : Image) (scale_factor : ℚ) : Image :=
  resize_bilinear img (ftrunc ((img.width : ℚ) * scale_factor))
    (ftrunc ((img.height : ℚ) * scale_factor))

def scale_image_width (img : Image) (target_width : ℤ) : Image :=
  let scale_factor : ℚ := ((target_width : ℤ) : ℚ) / (img.width : ℚ)
  resize_bilinear img target_width (ftrunc ((img.height : ℚ) * scale_factor))

def scale_image_height (img : Image) (target_height : ℤ) : Image :=
  let scale_factor : ℚ := ((target_height : ℤ) : ℚ) / (img.height : ℚ)
  resize_bilinear img (ftrunc ((img.width : ℚ) * scale_factor)) target_height

/-! ## Skew estimation & correction (`deskew.cpp`) -/

/-- The `PI` constant of `deskew.cpp`. -/
def piF : ℚ := 3.14159265359

/-- Estimation `estimate_skew_angle_projection`: Otsu-binarize, then scan candidate
angles in steps of 0.5°, scoring each by the variance of the row-projection
histogram of the black pixels; strict-`>` argmax, initial best angle 0. -/
def estimate_skew_angle_projection (fcos fsin : ℚ → ℚ) (img : Image)
    (min_angle max_angle : ℚ) : ℚ :=
  let gray_img := if img.channels = 1 then img else to_grayscale_luminance img
  let binary_img := threshold_otsu gray_img
  let nAngles : ℕ :=
    if max_angle < min_angle then 0 else (⌊(max_angle - min_angle) * 2⌋).toNat + 1
  let pairs := (List.range binary_img.height).flatMap fun y =>
    (List.range binary_img.width).map fun x => (x, y)
  (((List.range nAngles).map fun k => min_angle + (k : ℚ) / 2).foldl
    (fun st angle =>
      let rad := angle * piF / 180
      let ca := fcos rad
      let sa := fsin rad
      let proj := (List.range binary_img.height).map fun j =>
        pairs.countP fun p =>
          decide (binary_img.px p.1 p.2 0 = 0) &&
            decide (ftrunc ((p.1 : ℚ) * sa + (p.2 : ℚ) * ca) = (j : ℤ))
      let mean : ℚ := ((proj.map fun cnt => (cnt : ℚ)).sum) / (proj.length : ℚ)
      let variance : ℚ :=
        ((proj.map fun cnt => ((cnt : ℚ) - mean) * ((cnt : ℚ) - mean)).sum) /
          (proj.length : ℚ)
      if st.2 < variance then (angle, variance) else st)
    ((0 : ℚ), (0 : ℚ))).1

def rotate_image (fcos fsin : ℚ → ℚ) (img : Image) (angle_degrees : ℚ)
    (background_color : ℕ) : Image :=
  if |angle_degrees| < 0.01 then img
  else
    let rad := angle_degrees * piF / 180
    let ca := fcos rad
    let sa := fsin rad
    let corners : List (ℚ × ℚ) :=
      [(0, 0), ((img.width : ℚ), 0), ((img.width : ℚ), (img.height : ℚ)), (0, (img.height : ℚ))]
    let nxs := corners.map fun p => p.1 * ca - p.2 * sa
    let nys := corners.map fun p => p.1 * sa + p.2 * ca
    let min_x := nxs.foldl min 0
    let max_x := nxs.foldl max 0
    let min_y := nys.foldl min 0
    let max_y := nys.foldl max 0
    let new_width := (ftrunc (max_x - min_x + 0.5)).toNat
    let new_height := (ftrunc (max_y - min_y + 0.5)).toNat
    let offset_x := -min_x
    let offset_y := -min_y
    mkImage new_width new_height img.channels fun x y c =>
      let src_x := ((x : ℚ) - offset_x) * ca + ((y : ℚ) - offset_y) * sa
      let src_y := -((x : ℚ) - offset_x) * sa + ((y : ℚ) - offset_y) * ca
      let sxi := ftrunc (src_x + 0.5)
      let syi := ftrunc (src_y + 0.5)
      if 0 ≤ sxi ∧ sxi < (img.width : ℤ) ∧ 0 ≤ syi ∧ syi < (img.height : ℤ) then
        img.px sxi.toNat syi.toNat c
      else background_color

/-- Correction `deskew`: rotate by the negated angle over a white background. -/
def deskew (fcos fsin : ℚ → ℚ) (img : Image) (angle_degrees : ℚ) : Image :=
  rotate_image fcos fsin img (-angle_degrees) 255

/-! ## Pipeline orchestration (`pipeline.h`, `pipeline.cpp`) -/

structure PipelineConfig where
  enable_deskewing : Bool := true
  max_skew_angle : ℚ := 45
  enable_noise_reduction : Bool := true
  median_filter_size : ℕ := 3
  enable_contrast_enhancement : Bool := true
  use_histogram_equalization : Bool := false
  percentile_low : ℚ := 2
  percentile_high : ℚ := 98
  enable_resizing : Bool := false
  target_width : ℤ := 0
  target_height : ℤ := 0
  scale_factor : ℚ := 1
  enable_thresholding : Bool := true
  use_adaptive_threshold : Bool := false
  adaptive_block_size : ℕ := 11
  adaptive_c : ℤ := 2
  save_intermediate_steps : Bool := false
  output_name : String := "processed"

structure PipelineResult where
  final_image : Image
  intermediate_steps : List Image
  step_names : List String
  detected_skew_angle : ℚ
  otsu_threshold : ℕ
  success : Bool
  error_message : String

/-- The stage functions `process_for_ocr` calls, `Except`-valued so that the
orchestrator's `try`/`catch` policy can be stated for arbitrary stage
failures; `realStages` instantiates them with the (total) embeddings above. -/
structure Stages where
  to_gray : Image → Except String Image
  est_skew : Image → ℚ → ℚ → Except String ℚ
  deskew_fn : Image → ℚ → Except String Image
  median : Image → ℕ → Except String Image
  histeq : Image → Except String Image
  pctile : Image → ℚ → ℚ → Except String Image
  resize_bil : Image → ℤ → ℤ → Except String Image
  scale_w : Image → ℤ → Except String Image
  scale_h : Image → ℤ → Except String Image
  scale_f : Image → ℚ → Except String Image
  adaptive_mean : Image → ℕ → ℤ → Except String Image
  calc_otsu : Image → Except String ℕ
  thr_otsu : Image → Except String Image

/-- Mutable state of one pipeline run: `current_image` plus the `result`
record being filled in. -/
structure PState where
  current : Image
  res : PipelineResult

/-- Embedding of `result.intermediate_steps.push_back(current)` followed by `result.step_names.push_back(nm)`. -/
def pushStep (st : PState) (nm : String) : PState :=
  { st with res := { st.res with
      intermediate_steps := st.res.intermediate_steps ++ [st.current],
      step_names := st.res.step_names ++ [nm] } }

/-- Sequencing under the C++ exception: once a stage has thrown, later stages
do not run, but the state mutated so far is kept (the `result` object
outlives the `try` block). -/
def pgo (r : PState × Option String) (f : PState → PState × Option String) :
    PState × Option String :=
  match r with
  | (st, none) => f st
  | (st, some e) => (st, some e)

def stageOriginal (cfg : PipelineConfig) (st : PState) : PState × Option String :=
  (if cfg.save_intermediate_steps then pushStep st "00_original" else st, none)

def stageGray (S : Stages) (cfg : PipelineConfig) (st : PState) :
    PState × Option String :=
  if 1 < st.current.channels then
    match S.to_gray st.current with
    | .error e => (st, some e)
    | .ok img =>
      let st' : PState := { st with current := img }
      (if cfg.save_intermediate_steps then pushStep st' "01_grayscale" else st', none)
  else (st, none)

def stageDeskew (S : Stages) (cfg : PipelineConfig) (st : PState) :
    PState × Option String :=
  if cfg.enable_deskewing then
    match S.est_skew st.current (-cfg.max_skew_angle) cfg.max_skew_angle with
    | .error e => (st, some e)
    | .ok skew_angle =>
      let st' : PState :=
        { st with res := { st.res with detected_skew_angle := skew_angle } }
      if 0.5 < |skew_angle| then
        match S.deskew_fn st'.current skew_angle with
        | .error e => (st', some e)
        | .ok img =>
          let st'' : PState := { st' with current := img }
          (if cfg.save_intermediate_steps then pushStep st'' "02_deskewed" else st'', none)
      else (st', none)
  else (st, none)

def stageNoise (S : Stages) (cfg : PipelineConfig) (st : PState) :
    PState × Option String :=
  if cfg.enable_noise_reduction then
    match S.median st.current cfg.median_filter_size with
    | .error e => (st, some e)
    | .ok img =>
      let st' : PState := { st with current := img }
      (if cfg.save_intermediate_steps then pushStep st' "03_noise_reduced" else st', none)
  else (st, none)

def stageContrast (S : Stages) (cfg : PipelineConfig) (st : PState) :
    PState × Option String :=
  if cfg.enable_contrast_enhancement then
    match (if cfg.use_histogram_equalization then S.histeq st.current
        else S.pctile st.current cfg.percentile_low cfg.percentile_high) with
    | .error e => (st, some e)
    | .ok img =>
      let st' : PState := { st with current := img }
      (if cfg.save_intermediate_steps then pushStep st' "04_contrast_enhanced" else st', none)
  else (st, none)

def stageResize (S : Stages) (cfg : PipelineConfig) (st : PState) :
    PState × Option String :=
  if cfg.enable_resizing then
    match (if 0 < cfg.target_width ∧ 0 < cfg.target_height then
        S.resize_bil st.current cfg.target_width cfg.target_height
      else if 0 < cfg.target_width then S.scale_w st.current cfg.target_width
      else if 0 < cfg.target_height then S.scale_h st.current cfg.target_height
      else if cfg.scale_factor ≠ 1 then S.scale_f st.current cfg.scale_factor
      else .ok st.current) with
    | .error e => (st, some e)
    | .ok img =>
      let st' : PState := { st with current := img }
      (if cfg.save_intermediate_steps then pushStep st' "05_resized" else st', none)
  else (st, none)

def stageThreshold (S : Stages) (cfg : PipelineConfig) (st : PState) :
    PState × Option String :=
  if cfg.enable_thresholding then
    if cfg.use_adaptive_threshold then
      match S.adaptive_mean st.current cfg.adaptive_block_size cfg.adaptive_c with
      | .error e => (st, some e)
      | .ok img =>
        let st' : PState := { st with current := img }
        (if cfg.save_intermediate_steps then pushStep st' "06_thresholded" else st', none)
    else
      match S.calc_otsu st.current with
      | .error e => (st, some e)
      | .ok t =>
        let st' : PState := { st with res := { st.res with otsu_threshold := t } }
        match S.thr_otsu st'.current with
        | .error e => (st', some e)
        | .ok img =>
          let st'' : PState := { st' with current := img }
          (if cfg.save_intermediate_steps then pushStep st'' "06_thresholded" else st'', none)
  else (st, none)

/-- The initializer of `result` in `process_for_ocr`: a 1 by 1 zero image, empty step lists, zero diagnostics, `success = false`, empty message. -/
def initResult : PipelineResult := ⟨⟨1, 1, 1, [0]⟩, [], [], 0, 0, false, ""⟩

def runStages (S : Stages) (cfg : PipelineConfig) (img : Image) :
    PState × Option String :=
  pgo (pgo (pgo (pgo (pgo (pgo (stageOriginal cfg ⟨img, initResult⟩)
    (stageGray S cfg)) (stageDeskew S cfg)) (stageNoise S cfg))
    (stageContrast S cfg)) (stageResize S cfg)) (stageThreshold S cfg)

/-- The orchestrator `process_for_ocr` (`pipeline.cpp:14-111`) with the stage functions
abstracted; the surrounding `match` is the `try`/`catch`. -/
def process_for_ocr (S : Stages) (img : Image) (cfg : PipelineConfig) :
    PipelineResult :=
  match runStages S cfg img with
  | (st, none) => { st.res with final_image := st.current, success := true }
  | (st, some e) => { st.res with success := false, error_message := e }

/-- The concrete stage functions of the repository (all total). -/
def realStages (fcos fsin : ℚ → ℚ) : Stages where
  to_gray img := .ok (to_grayscale_luminance img)
  est_skew img lo hi := .ok (estimate_skew_angle_projection fcos fsin img lo hi)
  deskew_fn img a := .ok (deskew fcos fsin img a)
  median img k := .ok (median_filter img k)
  histeq img := .ok (histogram_equalization img)
  pctile img pl ph := .ok (normalize_contrast_percentile img pl ph)
  resize_bil img w h := .ok (resize_bilinear img w h)
  scale_w img w := .ok (scale_image_width img w)
  scale_h img h := .ok (scale_image_height img h)
  scale_f img f := .ok (scale_image img f)
  adaptive_mean img b c := .ok (threshold_adaptive_mean img b c)
  calc_otsu img := .ok (calculate_otsu_threshold img)
  thr_otsu img := .ok (threshold_otsu img)

/-! ## C6: grayscale conversion -/

/-- Modelled from the spec's wording of the luminance formula: EXACT
arithmetic `0.299R + 0.587G + 0.114B`, truncated toward zero.  (The code
evaluates the formula in `double`, which `grayscale_exact_counterexample`
shows is observably different.) -/
def specGray (r g b : ℕ) : ℕ :=
  (⌊(0.299 : ℚ) * r + 0.587 * g + 0.114 * b⌋).toNat

/-! ## C9: binarization invariants -/

/-- The shape every binarization output has: input dimensions, one channel,
all pixels 0 or 255. -/
def BinOutputWF (img out : Image) : Prop :=
  out.width = img.width ∧ out.height = img.height ∧ out.channels = 1 ∧
    ∀ v ∈ out.data, v = 0 ∨ v = 255

/-! ## Pipeline stage facts (C3, C4, C5, C10) -/

/-- A stage block leaves the error message alone and only appends to the
intermediate-step lists. -/
def MsgSteps (B : PState → PState × Option String) : Prop :=
  ∀ st, (B st).1.res.error_message = st.res.error_message ∧
    st.res.intermediate_steps <+: (B st).1.res.intermediate_steps ∧
    st.res.step_names <+: (B st).1.res.step_names

/-- A stage block leaves the recorded skew angle alone. -/
def SkewPres (B : PState → PState × Option String) : Prop :=
  ∀ st, (B st).1.res.detected_skew_angle = st.res.detected_skew_angle

/-- A stage set whose every stage throws, to exercise the catch path. -/
def boomStages : Stages where
  to_gray _ := .error "boom"
  est_skew _ _ _ := .error "boom"
  deskew_fn _ _ := .error "boom"
  median _ _ := .error "boom"
  histeq _ := .error "boom"
  pctile _ _ _ := .error "boom"
  resize_bil _ _ _ := .error "boom"
  scale_w _ _ := .error "boom"
  scale_h _ _ := .error "boom"
  scale_f _ _ := .error "boom"
  adaptive_mean _ _ _ := .error "boom"
  calc_otsu _ := .error "boom"
  thr_otsu _ := .error "boom"

theorem flat_index_lt {w h c x y ch : ℕ} (hx : x < w) (hy : y < h) (hc : ch < c) :
    (y * w + x) * c + ch < w * h * c := by
  have h1 : y * w + x + 1 ≤ h * w := by
    calc y * w + x + 1 ≤ y * w + w := by omega
    _ = (y + 1) * w := by ring
    _ ≤ h * w := Nat.mul_le_mul_right w hy
  calc (y * w + x) * c + ch < (y * w + x) * c + c := by omega
  _ = (y * w + x + 1) * c := by ring
  _ ≤ h * w * c := Nat.mul_le_mul_right c h1
  _ = w * h * c := by ring

theorem px_mkImage {w h c x y ch : ℕ} (f : ℕ → ℕ → ℕ → ℕ)
    (hx : x < w) (hy : y < h) (hc : ch < c) :
    (mkImage w h c f).px x y ch = f x y ch := by
  have hlt : (y * w + x) * c + ch < w * h * c := flat_index_lt hx hy hc
  have hlen : (y * w + x) * c + ch <
      ((List.range (w * h * c)).map fun i => f (i / c % w) (i / c / w) (i % c)).length := by
    simpa using hlt
  rw [Image.px, mkImage, List.getD_eq_getElem _ _ hlen, List.getElem_map, List.getElem_range]
  have hc0 : 0 < c := by omega
  have hdiv : ((y * w + x) * c + ch) / c = y * w + x := by
    rw [Nat.add_comm, Nat.add_mul_div_right ch (y * w + x) hc0, Nat.div_eq_of_lt hc]
    omega
  have hmod : ((y * w + x) * c + ch) % c = ch := by
    rw [Nat.add_comm, Nat.add_mul_mod_self_right, Nat.mod_eq_of_lt hc]
  rw [hdiv, hmod]
  have hx' : (y * w + x) % w = x := by
    rw [Nat.add_comm, Nat.add_mul_mod_self_right, Nat.mod_eq_of_lt hx]
  have hy' : (y * w + x) / w = y := by
    have hw0 : 0 < w := by omega
    rw [Nat.add_comm, Nat.add_mul_div_right x y hw0, Nat.div_eq_of_lt hx]
    omega
  rw [hx', hy']

theorem mkImage_congr {w h c : ℕ} {f g : ℕ → ℕ → ℕ → ℕ}
    (hfg : ∀ x < w, ∀ y < h, ∀ ch < c, f x y ch = g x y ch) :
    mkImage w h c f = mkImage w h c g := by
  unfold mkImage
  refine congrArg _ (List.map_congr_left fun i hi => ?_)
  have hi' : i < w * h * c := List.mem_range.mp hi
  have hc0 : 0 < c := by
    rcases Nat.eq_zero_or_pos c with h0 | h0
    · rw [h0, Nat.mul_zero] at hi'; omega
    · exact h0
  have hw0 : 0 < w := by
    rcases Nat.eq_zero_or_pos w with h0 | h0
    · rw [h0, Nat.zero_mul, Nat.zero_mul] at hi'; omega
    · exact h0
  have h1 : i / c < w * h := (Nat.div_lt_iff_lt_mul hc0).mpr hi'
  have hxx : i / c % w < w := Nat.mod_lt _ hw0
  have hyy : i / c / w < h := by
    rw [Nat.div_lt_iff_lt_mul hw0]
    calc i / c < w * h := h1
    _ = h * w := Nat.mul_comm w h
  exact hfg _ hxx _ hyy _ (Nat.mod_lt _ hc0)

/-- A well-formed image is recovered by re-listing its own pixels. -/
theorem mkImage_px_self (img : Image) (hwf : img.WF) :
    mkImage img.width img.height img.channels img.px = img := by
  obtain ⟨hw, hh, hc, hlen, _⟩ := hwf
  obtain ⟨w, h, c, d⟩ := img
  replace hlen : d.length = w * h * c := hlen
  show mkImage w h c (Image.px ⟨w, h, c, d⟩) = ⟨w, h, c, d⟩
  unfold mkImage
  refine congrArg (Image.mk w h c) ?_
  refine List.ext_getElem (by simpa using hlen.symm) fun i h1 h2 => ?_
  simp only [List.getElem_map, List.getElem_range]
  have hi : i < w * h * c := by simpa using h1
  show Image.px ⟨w, h, c, d⟩ (i / c % w) (i / c / w) (i % c) = d[i]
  rw [Image.px]
  have hrt : (i / c / w * w + i / c % w) * c + i % c = i := by
    have e1 : i / c / w * w + i / c % w = i / c := by
      rw [Nat.mul_comm]; exact Nat.div_add_mod (i / c) w
    rw [e1]
    have e2 : i / c * c = c * (i / c) := Nat.mul_comm _ _
    rw [e2]; exact Nat.div_add_mod i c
  show List.getD d ((i / c / w * w + i / c % w) * Image.channels ⟨w, h, c, d⟩ + i % c) 0 = d[i]
  rw [show Image.channels ⟨w, h, c, d⟩ = c from rfl, hrt]
  rw [List.getD_eq_getElem _ _ (by rw [hlen]; exact hi)]

theorem length_channelVals (img : Image) (ch : ℕ) :
    (channelVals img ch).length = img.height * img.width := by
  unfold channelVals
  rw [List.length_flatMap]
  have h2 : ((List.range img.height).map
      (List.length ∘ fun y => (List.range img.width).map fun x => img.px x y ch)) =
      (List.range img.height).map (Function.const ℕ img.width) :=
    List.map_congr_left fun a _ => by simp [Function.const]
  rw [h2, List.map_const, List.length_range, List.sum_replicate, smul_eq_mul]

theorem mem_channelVals {img : Image} {ch v : ℕ} :
    v ∈ channelVals img ch ↔ ∃ y < img.height, ∃ x < img.width, img.px x y ch = v := by
  unfold channelVals
  simp only [List.mem_flatMap, List.mem_map, List.mem_range]

theorem px_mem_channelVals {img : Image} {x y : ℕ} (ch : ℕ)
    (hx : x < img.width) (hy : y < img.height) :
    img.px x y ch ∈ channelVals img ch :=
  mem_channelVals.mpr ⟨y, hy, x, hx, rfl⟩

theorem channelVals_mkImage {w h c ch : ℕ} (f : ℕ → ℕ → ℕ → ℕ) (hc : ch < c) :
    channelVals (mkImage w h c f) ch =
      (List.range h).flatMap fun y => (List.range w).map fun x => f x y ch := by
  unfold channelVals
  exact List.flatMap_congr fun y hy =>
    List.map_congr_left fun x hx =>
      px_mkImage f (List.mem_range.mp hx) (List.mem_range.mp hy) hc

/-! ## Basic facts about the constructions -/

theorem mkImage_width (w h c : ℕ) (f : ℕ → ℕ → ℕ → ℕ) : (mkImage w h c f).width = w := rfl

theorem mkImage_height (w h c : ℕ) (f : ℕ → ℕ → ℕ → ℕ) : (mkImage w h c f).height = h := rfl

theorem mkImage_channels (w h c : ℕ) (f : ℕ → ℕ → ℕ → ℕ) : (mkImage w h c f).channels = c := rfl

theorem mem_mkImage_data {w h c : ℕ} {f : ℕ → ℕ → ℕ → ℕ} {v : ℕ}
    (hv : v ∈ (mkImage w h c f).data) : ∃ x y ch, v = f x y ch := by
  simp only [mkImage, List.mem_map] at hv
  obtain ⟨i, _, hiv⟩ := hv
  exact ⟨_, _, _, hiv.symm⟩

theorem to_grayscale_luminance_width (img : Image) :
    (to_grayscale_luminance img).width = img.width := by
  unfold to_grayscale_luminance; split <;> rfl

theorem to_grayscale_luminance_height (img : Image) :
    (to_grayscale_luminance img).height = img.height := by
  unfold to_grayscale_luminance; split <;> rfl

/-- C6 (amended): `to_grayscale_luminance` is the identity on single-channel
images; on images with ≥ 3 channels it yields a single-channel image of the
same dimensions whose pixels are the double-precision evaluation of
`0.299R + 0.587G + 0.114B`, truncated toward zero. -/
theorem grayscale_luminance_spec (img : Image) :
    (img.channels = 1 → to_grayscale_luminance img = img) ∧
    (3 ≤ img.channels →
      (to_grayscale_luminance img).width = img.width ∧
      (to_grayscale_luminance img).height = img.height ∧
      (to_grayscale_luminance img).channels = 1 ∧
      ∀ x < img.width, ∀ y < img.height,
        (to_grayscale_luminance img).px x y 0 =
          doubleGray (img.px x y 0) (img.px x y 1) (img.px x y 2)) := by
  constructor
  · intro h1
    unfold to_grayscale_luminance
    rw [if_pos h1]
  · intro h3
    have hne : ¬ img.channels = 1 := by omega
    unfold to_grayscale_luminance
    rw [if_neg hne]
    refine ⟨rfl, rfl, rfl, fun x hx y hy => ?_⟩
    rw [px_mkImage _ hx hy Nat.one_pos, if_pos h3]

/-- Witness for C6 at concrete single-channel and 3-channel images. -/
theorem grayscale_luminance_spec_witness :
    to_grayscale_luminance ⟨1, 1, 1, [5]⟩ = ⟨1, 1, 1, [5]⟩ ∧
    (to_grayscale_luminance ⟨1, 1, 3, [10, 20, 30]⟩).px 0 0 0 =
      doubleGray 10 20 30 := by
  refine ⟨(grayscale_luminance_spec ⟨1, 1, 1, [5]⟩).1 rfl, ?_⟩
  exact ((grayscale_luminance_spec ⟨1, 1, 3, [10, 20, 30]⟩).2 (by decide)).2.2.2
    0 (by decide) 0 (by decide)

/-- C6 counterexample: on the pixel `(R,G,B) = (1,1,1)` the code's double
arithmetic produces gray value 0, while the claimed exact formula gives 1. -/
theorem grayscale_exact_counterexample :
    (to_grayscale_luminance ⟨1, 1, 3, [1, 1, 1]⟩).px 0 0 0 = 0 ∧
    specGray 1 1 1 = 1 ∧
    (to_grayscale_luminance ⟨1, 1, 3, [1, 1, 1]⟩).px 0 0 0 ≠ specGray 1 1 1 := by
  have h1 : (to_grayscale_luminance ⟨1, 1, 3, [1, 1, 1]⟩).px 0 0 0 = 0 := by decide
  have h2 : specGray 1 1 1 = 1 := by
    unfold specGray
    norm_num
  exact ⟨h1, h2, by rw [h1, h2]; omega⟩

theorem binOutputWF_mk (img : Image) (w h : ℕ) (f : ℕ → ℕ → ℕ → ℕ)
    (hw : w = img.width) (hh : h = img.height)
    (hf : ∀ x y ch, f x y ch = 0 ∨ f x y ch = 255) :
    BinOutputWF img (mkImage w h 1 f) := by
  refine ⟨hw, hh, rfl, fun v hv => ?_⟩
  obtain ⟨x, y, ch, rfl⟩ := mem_mkImage_data hv
  exact hf x y ch

theorem gray_if_width (img : Image) :
    (if img.channels = 1 then img else to_grayscale_luminance img).width = img.width := by
  split
  · rfl
  · exact to_grayscale_luminance_width img

theorem gray_if_height (img : Image) :
    (if img.channels = 1 then img else to_grayscale_luminance img).height = img.height := by
  split
  · rfl
  · exact to_grayscale_luminance_height img

/-- C9: every binarization operation (`threshold_binary`,
`threshold_binary_inverted`, `threshold_otsu`, `threshold_adaptive_mean`,
`threshold_adaptive_gaussian`) returns a single-channel image with the
input's width and height in which every pixel is 0 or 255. -/
theorem binarization_invariant (fexp : ℚ → ℚ) (img : Image) (tv bs : ℕ) (c : ℤ) :
    BinOutputWF img (threshold_binary img tv) ∧
    BinOutputWF img (threshold_binary_inverted img tv) ∧
    BinOutputWF img (threshold_otsu img) ∧
    BinOutputWF img (threshold_adaptive_mean img bs c) ∧
    BinOutputWF img (threshold_adaptive_gaussian fexp img bs c) := by
  have hb : ∀ t, BinOutputWF img (threshold_binary img t) := by
    intro t
    unfold threshold_binary
    refine binOutputWF_mk img _ _ _ (gray_if_width img) (gray_if_height img)
      fun x y ch => ?_
    exact Or.symm (ite_eq_or_eq _ 255 0)
  refine ⟨hb tv, ?_, ?_, ?_, ?_⟩
  · unfold threshold_binary_inverted
    refine binOutputWF_mk img _ _ _ (gray_if_width img) (gray_if_height img)
      fun x y ch => ?_
    exact ite_eq_or_eq _ 0 255
  · unfold threshold_otsu
    exact hb _
  · unfold threshold_adaptive_mean
    refine binOutputWF_mk img _ _ _ (gray_if_width img) (gray_if_height img)
      fun x y ch => ?_
    exact Or.symm (ite_eq_or_eq _ 255 0)
  · unfold threshold_adaptive_gaussian
    refine binOutputWF_mk img _ _ _ (gray_if_width img) (gray_if_height img)
      fun x y ch => ?_
    exact Or.symm (ite_eq_or_eq _ 255 0)

/-- Witness for C9 at a concrete two-pixel image and concrete parameters. -/
theorem binarization_invariant_witness :
    BinOutputWF ⟨2, 1, 1, [5, 200]⟩ (threshold_binary ⟨2, 1, 1, [5, 200]⟩ 100) ∧
    BinOutputWF ⟨2, 1, 1, [5, 200]⟩ (threshold_binary_inverted ⟨2, 1, 1, [5, 200]⟩ 100) ∧
    BinOutputWF ⟨2, 1, 1, [5, 200]⟩ (threshold_otsu ⟨2, 1, 1, [5, 200]⟩) ∧
    BinOutputWF ⟨2, 1, 1, [5, 200]⟩ (threshold_adaptive_mean ⟨2, 1, 1, [5, 200]⟩ 3 2) ∧
    BinOutputWF ⟨2, 1, 1, [5, 200]⟩
      (threshold_adaptive_gaussian (fun _ => 1) ⟨2, 1, 1, [5, 200]⟩ 3 2) :=
  binarization_invariant (fun _ => 1) ⟨2, 1, 1, [5, 200]⟩ 100 3 2

/-! ## Facts about the fold-based min/max loops -/

theorem foldl_min_le_init (g : List ℕ) (a : ℕ) : g.foldl min a ≤ a := by
  induction g generalizing a with
  | nil => exact Nat.le_refl a
  | cons hd tl ih => exact Nat.le_trans (ih (min a hd)) (Nat.min_le_left a hd)

theorem foldl_min_le_mem {g : List ℕ} {v : ℕ} (a : ℕ) (hv : v ∈ g) :
    g.foldl min a ≤ v := by
  induction g generalizing a with
  | nil => cases hv
  | cons hd tl ih =>
    rcases List.mem_cons.mp hv with rfl | hmem
    · exact Nat.le_trans (foldl_min_le_init tl (min a v)) (Nat.min_le_right a v)
    · exact ih (min a hd) hmem

theorem foldl_min_mem_or (g : List ℕ) (a : ℕ) :
    g.foldl min a = a ∨ g.foldl min a ∈ g := by
  induction g generalizing a with
  | nil => exact Or.inl rfl
  | cons hd tl ih =>
    rcases ih (min a hd) with h | h
    · rcases Nat.le_total a hd with hle | hle
      · rw [List.foldl_cons, h, Nat.min_eq_left hle]
        exact Or.inl rfl
      · rw [List.foldl_cons, h, Nat.min_eq_right hle]
        exact Or.inr (List.mem_cons_self hd tl)
    · exact Or.inr (List.mem_cons_of_mem hd h)

theorem foldl_max_init_le (g : List ℕ) (a : ℕ) : a ≤ g.foldl max a := by
  induction g generalizing a with
  | nil => exact Nat.le_refl a
  | cons hd tl ih => exact Nat.le_trans (Nat.le_max_left a hd) (ih (max a hd))

theorem foldl_max_mem_le {g : List ℕ} {v : ℕ} (a : ℕ) (hv : v ∈ g) :
    v ≤ g.foldl max a := by
  induction g generalizing a with
  | nil => cases hv
  | cons hd tl ih =>
    rcases List.mem_cons.mp hv with rfl | hmem
    · exact Nat.le_trans (Nat.le_max_right a v) (foldl_max_init_le tl (max a v))
    · exact ih (max a hd) hmem

theorem foldl_max_mem_or (g : List ℕ) (a : ℕ) :
    g.foldl max a = a ∨ g.foldl max a ∈ g := by
  induction g generalizing a with
  | nil => exact Or.inl rfl
  | cons hd tl ih =>
    rcases ih (max a hd) with h | h
    · rcases Nat.le_total a hd with hle | hle
      · rw [List.foldl_cons, h, Nat.max_eq_right hle]
        exact Or.inr (List.mem_cons_self hd tl)
      · rw [List.foldl_cons, h, Nat.max_eq_left hle]
        exact Or.inl rfl
    · exact Or.inr (List.mem_cons_of_mem hd h)

/-- The channel minimum loop (`min_val = 255` then `std::min` over all
pixels) lands on an attained value when the values are bytes. -/
theorem minFold_attained {g : List ℕ} (hne : g ≠ []) (hbd : ∀ v ∈ g, v ≤ 255) :
    g.foldl min 255 ∈ g := by
  rcases foldl_min_mem_or g 255 with h | h
  · obtain ⟨v0, hv0⟩ := List.exists_mem_of_ne_nil g hne
    have h1 := foldl_min_le_mem 255 hv0
    have h2 := hbd v0 hv0
    have : v0 = g.foldl min 255 := by omega
    rw [← this] at h ⊢
    rw [h] at this
    exact hv0
  · exact h

theorem maxFold_attained {g : List ℕ} (hne : g ≠ []) : g.foldl max 0 ∈ g := by
  rcases foldl_max_mem_or g 0 with h | h
  · obtain ⟨v0, hv0⟩ := List.exists_mem_of_ne_nil g hne
    have h1 := foldl_max_mem_le 0 hv0
    have : v0 = g.foldl max 0 := by omega
    rw [← this] at h ⊢
    rw [h] at this
    exact hv0
  · exact h

/-- A fold leaves the state unchanged when every step does. -/
theorem foldl_eq_self {σ α : Type} (f : σ → α → σ) (s : σ) (l : List α)
    (h : ∀ x ∈ l, f s x = s) : l.foldl f s = s := by
  induction l with
  | nil => rfl
  | cons hd tl ih =>
    rw [List.foldl_cons, h hd (List.mem_cons_self hd tl)]
    exact ih fun x hx => h x (List.mem_cons_of_mem hd hx)

/-! ## C8: idempotence of min-max normalization -/

theorem qround_natCast (n : ℕ) : qround (n : ℚ) = (n : ℤ) := by
  unfold qround
  refine Int.floor_eq_iff.mpr ⟨?_, ?_⟩ <;> push_cast <;> linarith

theorem qround_le_255 {q : ℚ} (h : q ≤ 255) : (qround q).toNat ≤ 255 := by
  rw [Int.toNat_le]
  unfold qround
  have h1 : ⌊q + 1 / 2⌋ ≤ ⌊(255 : ℚ) + 1 / 2⌋ := Int.floor_le_floor (by linarith)
  have h2 : ⌊(255 : ℚ) + 1 / 2⌋ = 255 := by norm_num
  rw [h2] at h1
  exact_mod_cast h1

theorem px_bound {img : Image} (hbd : ∀ u ∈ img.data, u < 256) (x y ch : ℕ) :
    img.px x y ch ≤ 255 := by
  unfold Image.px
  rcases Nat.lt_or_ge ((y * img.width + x) * img.channels + ch) img.data.length with
    hlt | hge
  · rw [List.getD_eq_getElem _ _ hlt]
    exact Nat.lt_succ_iff.mp (hbd _ (List.getElem_mem _))
  · rw [List.getD_eq_default _ _ hge]
    omega

theorem gather_map (img : Image) (ch : ℕ) (F : ℕ → ℕ) :
    ((List.range img.height).flatMap fun y =>
      (List.range img.width).map fun x => F (img.px x y ch)) =
      (channelVals img ch).map F := by
  unfold channelVals
  rw [List.map_flatMap]
  exact List.flatMap_congr fun y hy => by rw [List.map_map]; rfl

theorem minmaxMap_pos (g : List ℕ) (v : ℕ)
    (h : (0 : ℚ) < ((g.foldl max 0 : ℕ) : ℚ) - ((g.foldl min 255 : ℕ) : ℚ)) :
    minmaxMap g v = (qround (((v : ℚ) - ((g.foldl min 255 : ℕ) : ℚ)) * 255 /
      (((g.foldl max 0 : ℕ) : ℚ) - ((g.foldl min 255 : ℕ) : ℚ)))).toNat := by
  unfold minmaxMap
  rw [if_pos h]

theorem minmaxMap_nonpos (g : List ℕ) (v : ℕ)
    (h : ¬ (0 : ℚ) < ((g.foldl max 0 : ℕ) : ℚ) - ((g.foldl min 255 : ℕ) : ℚ)) :
    minmaxMap g v = v := by
  unfold minmaxMap
  rw [if_neg h]

/-- After one pass of the min-max stretch a channel spans `[0,255]` exactly
(or was passed through unchanged), so the second pass is the identity. -/
theorem minmaxMap_second_pass (g : List ℕ) (hbd : ∀ v ∈ g, v ≤ 255)
    {v : ℕ} (hv : v ∈ g) :
    minmaxMap (g.map (minmaxMap g)) (minmaxMap g v) = minmaxMap g v := by
  have hne : g ≠ [] := List.ne_nil_of_mem hv
  by_cases hr : (0 : ℚ) < ((g.foldl max 0 : ℕ) : ℚ) - ((g.foldl min 255 : ℕ) : ℚ)
  case neg =>
    have hmap : g.map (minmaxMap g) = g := by
      have h1 : g.map (minmaxMap g) = g.map id :=
        List.map_congr_left fun u _ => minmaxMap_nonpos g u hr
      rw [h1, List.map_id]
    rw [hmap, minmaxMap_nonpos _ _ hr, minmaxMap_nonpos _ _ hr]
  case pos =>
    have hmem_m : g.foldl min 255 ∈ g := minFold_attained hne hbd
    have hmem_M : g.foldl max 0 ∈ g := maxFold_attained hne
    have hrne : ((g.foldl max 0 : ℕ) : ℚ) - ((g.foldl min 255 : ℕ) : ℚ) ≠ 0 :=
      ne_of_gt hr
    have hf_m : minmaxMap g (g.foldl min 255) = 0 := by
      rw [minmaxMap_pos _ _ hr, sub_self, zero_mul, zero_div]
      rw [show (0 : ℚ) = ((0 : ℕ) : ℚ) by norm_num, qround_natCast]
      rfl
    have hf_M : minmaxMap g (g.foldl max 0) = 255 := by
      rw [minmaxMap_pos _ _ hr]
      rw [show (((g.foldl max 0 : ℕ) : ℚ) - ((g.foldl min 255 : ℕ) : ℚ)) * 255 /
          (((g.foldl max 0 : ℕ) : ℚ) - ((g.foldl min 255 : ℕ) : ℚ)) = 255 by
        rw [mul_comm, mul_div_assoc, div_self hrne, mul_one]]
      rw [show (255 : ℚ) = ((255 : ℕ) : ℚ) by norm_num, qround_natCast]
      rfl
    have hf_le : ∀ u ∈ g, minmaxMap g u ≤ 255 := by
      intro u hu
      rw [minmaxMap_pos _ _ hr]
      refine qround_le_255 ?_
      rw [div_le_iff₀ hr]
      have huM : (u : ℚ) ≤ ((g.foldl max 0 : ℕ) : ℚ) :=
        Nat.cast_le.mpr (foldl_max_mem_le 0 hu)
      nlinarith
    have h0mem : (0 : ℕ) ∈ g.map (minmaxMap g) :=
      List.mem_map.mpr ⟨_, hmem_m, hf_m⟩
    have h255mem : (255 : ℕ) ∈ g.map (minmaxMap g) :=
      List.mem_map.mpr ⟨_, hmem_M, hf_M⟩
    have hm2 : (g.map (minmaxMap g)).foldl min 255 = 0 :=
      Nat.le_zero.mp (foldl_min_le_mem 255 h0mem)
    have hM2 : (g.map (minmaxMap g)).foldl max 0 = 255 := by
      have hge : 255 ≤ (g.map (minmaxMap g)).foldl max 0 := foldl_max_mem_le 0 h255mem
      rcases foldl_max_mem_or (g.map (minmaxMap g)) 0 with h | h
      · omega
      · obtain ⟨u, hu, hequ⟩ := List.mem_map.mp h
        have := hf_le u hu
        omega
    have hr2 : (0 : ℚ) < (((g.map (minmaxMap g)).foldl max 0 : ℕ) : ℚ) -
        (((g.map (minmaxMap g)).foldl min 255 : ℕ) : ℚ) := by
      rw [hm2, hM2]; norm_num
    rw [minmaxMap_pos _ _ hr2, hm2, hM2]
    have hsimp : (((minmaxMap g v : ℕ) : ℚ) - ((0 : ℕ) : ℚ)) * 255 /
        (((255 : ℕ) : ℚ) - ((0 : ℕ) : ℚ)) = ((minmaxMap g v : ℕ) : ℚ) := by
      push_cast
      rw [sub_zero, sub_zero]
      exact mul_div_cancel_right₀ _ (by norm_num)
    rw [hsimp, qround_natCast]
    simp

/-- C8: `normalize_contrast_minmax` is idempotent: a second application is a
no-op, because after the first one each channel either spans `[0,255]`
exactly or had zero range and was passed through.  (Byte-valued pixels are
assumed; the C++ type system guarantees them.) -/
theorem minmax_idempotent (img : Image) (hbd : ∀ v ∈ img.data, v < 256) :
    normalize_contrast_minmax (normalize_contrast_minmax img) =
      normalize_contrast_minmax img := by
  have hgb : ∀ ch, ∀ v ∈ channelVals img ch, v ≤ 255 := fun ch v hv => by
    obtain ⟨y, hy, x, hx, rfl⟩ := mem_channelVals.mp hv
    exact px_bound hbd x y ch
  have lhs_eq : normalize_contrast_minmax (normalize_contrast_minmax img) =
      mkImage img.width img.height img.channels fun x y ch =>
        minmaxMap (channelVals (normalize_contrast_minmax img) ch)
          ((normalize_contrast_minmax img).px x y ch) := rfl
  have rhs_eq : normalize_contrast_minmax img =
      mkImage img.width img.height img.channels fun x y ch =>
        minmaxMap (channelVals img ch) (img.px x y ch) := rfl
  refine Eq.trans lhs_eq (Eq.trans (mkImage_congr fun x hx y hy ch hch => ?_) rhs_eq.symm)
  have hpxo : (normalize_contrast_minmax img).px x y ch =
      minmaxMap (channelVals img ch) (img.px x y ch) := px_mkImage _ hx hy hch
  have hcv : channelVals (normalize_contrast_minmax img) ch =
      (channelVals img ch).map (minmaxMap (channelVals img ch)) := by
    unfold normalize_contrast_minmax
    rw [channelVals_mkImage _ hch]
    exact gather_map img ch _
  rw [hpxo, hcv]
  exact minmaxMap_second_pass _ (hgb ch) (px_mem_channelVals ch hx hy)

/-- Witness for C8 at a concrete two-pixel image. -/
theorem minmax_idempotent_witness :
    normalize_contrast_minmax (normalize_contrast_minmax ⟨2, 1, 1, [10, 20]⟩) =
      normalize_contrast_minmax ⟨2, 1, 1, [10, 20]⟩ :=
  minmax_idempotent ⟨2, 1, 1, [10, 20]⟩ (by decide)

/-! ## C1: uniform-color images under the contrast operations -/

theorem px_uniform {img : Image} {val : ℕ}
    (hlen : img.data.length = img.width * img.height * img.channels)
    (huni : ∀ u ∈ img.data, u = val) {x y ch : ℕ}
    (hx : x < img.width) (hy : y < img.height) (hch : ch < img.channels) :
    img.px x y ch = val := by
  unfold Image.px
  have hidx : (y * img.width + x) * img.channels + ch < img.data.length := by
    rw [hlen]; exact flat_index_lt hx hy hch
  rw [List.getD_eq_getElem _ _ hidx]
  exact huni _ (List.getElem_mem _)

theorem channelVals_all_uniform {img : Image} {val : ℕ}
    (hlen : img.data.length = img.width * img.height * img.channels)
    (huni : ∀ u ∈ img.data, u = val) {ch : ℕ} (hch : ch < img.channels) :
    ∀ u ∈ channelVals img ch, u = val := by
  intro u hu
  obtain ⟨y, hy, x, hx, rfl⟩ := mem_channelVals.mp hu
  exact px_uniform hlen huni hx hy hch

theorem minmaxMap_uniform {g : List ℕ} {val : ℕ} (hall : ∀ u ∈ g, u = val)
    (hmem : val ∈ g) (hbd : val ≤ 255) (v : ℕ) : minmaxMap g v = v := by
  apply minmaxMap_nonpos
  have hm : g.foldl min 255 = val := by
    have h1 := foldl_min_le_mem 255 hmem
    rcases foldl_min_mem_or g 255 with h | h
    · omega
    · exact hall _ h
  have hM : g.foldl max 0 = val := by
    have h1 := foldl_max_mem_le 0 hmem
    rcases foldl_max_mem_or g 0 with h | h
    · omega
    · exact hall _ h
  rw [hm, hM]
  simp

/-- First part of C1: min-max normalization fixes a uniform image. -/
theorem minmax_uniform_image (img : Image) (val : ℕ) (hwf : img.WF)
    (huni : ∀ u ∈ img.data, u = val) : normalize_contrast_minmax img = img := by
  obtain ⟨hw, hh, hc, hlen, hvals⟩ := hwf
  have hval_mem : val ∈ img.data := by
    have hpos : 0 < img.data.length := by
      rw [hlen]; exact Nat.mul_pos (Nat.mul_pos hw hh) hc
    obtain ⟨u, hu⟩ := List.exists_mem_of_ne_nil _ (List.ne_nil_of_length_pos hpos)
    rw [← huni u hu]; exact hu
  have hbd : val ≤ 255 := Nat.lt_succ_iff.mp (hvals val hval_mem)
  refine Eq.trans (mkImage_congr fun x hx y hy ch hch => ?_)
    (mkImage_px_self img ⟨hw, hh, hc, hlen, hvals⟩)
  exact minmaxMap_uniform (channelVals_all_uniform hlen huni hch)
    (by rw [← px_uniform hlen huni hw hh hch]; exact px_mem_channelVals ch hw hh)
    hbd _

theorem getD_all_eq {l : List ℕ} {val : ℕ} (hall : ∀ u ∈ l, u = val) {i : ℕ}
    (hi : i < l.length) : l.getD i 0 = val := by
  rw [List.getD_eq_getElem _ _ hi]
  exact hall _ (List.getElem_mem _)

theorem percentileMap_uniform {g : List ℕ} {val : ℕ} (hall : ∀ u ∈ g, u = val)
    (hmem : val ∈ g) (pl ph : ℚ) (v : ℕ) : percentileMap g pl ph v = v := by
  have hn : 0 < g.length := List.length_pos.mpr (List.ne_nil_of_mem hmem)
  have hps := List.mergeSort_perm g fun a b => a ≤ b
  have hlen_s : (g.mergeSort fun a b => a ≤ b).length = g.length := hps.length_eq
  have hall_s : ∀ u ∈ g.mergeSort fun a b => a ≤ b, u = val := fun u hu =>
    hall u (hps.mem_iff.mp hu)
  unfold percentileMap
  have hi1 : (max 0 (min (ftrunc ((g.length : ℚ) * pl / 100)) ((g.length : ℤ) - 1))).toNat <
      (g.mergeSort fun a b => a ≤ b).length := by
    rw [hlen_s]; omega
  have hi2 : (max 0 (min (ftrunc ((g.length : ℚ) * ph / 100)) ((g.length : ℤ) - 1))).toNat <
      (g.mergeSort fun a b => a ≤ b).length := by
    rw [hlen_s]; omega
  dsimp only
  rw [getD_all_eq hall_s hi1, getD_all_eq hall_s hi2]
  rw [sub_self]
  rw [if_neg (lt_irrefl 0)]

/-- Second part of C1: percentile normalization (for any percentile
arguments) fixes a uniform image. -/
theorem percentile_uniform_image (img : Image) (val : ℕ) (hwf : img.WF)
    (huni : ∀ u ∈ img.data, u = val) (pl ph : ℚ) :
    normalize_contrast_percentile img pl ph = img := by
  obtain ⟨hw, hh, hc, hlen, hvals⟩ := hwf
  refine Eq.trans (mkImage_congr fun x hx y hy ch hch => ?_)
    (mkImage_px_self img ⟨hw, hh, hc, hlen, hvals⟩)
  exact percentileMap_uniform (channelVals_all_uniform hlen huni hch)
    (by rw [← px_uniform hlen huni hw hh hch]; exact px_mem_channelVals ch hw hh)
    pl ph _

theorem cdfAt_all_val {g : List ℕ} {val : ℕ} (hall : ∀ u ∈ g, u = val) :
    cdfAt g val = (g.length : ℚ) := by
  unfold cdfAt
  rw [List.range_succ, List.map_append, List.sum_append]
  have h0 : (((List.range val).map fun j => ((g.count j : ℕ) : ℚ))).sum = 0 := by
    apply List.sum_eq_zero
    intro q hq
    obtain ⟨j, hj, rfl⟩ := List.mem_map.mp hq
    have hjv : j ≠ val := by
      have := List.mem_range.mp hj; omega
    have : g.count j = 0 := List.count_eq_zero.mpr fun hjg => hjv (hall j hjg)
    rw [this]; norm_num
  rw [h0, zero_add]
  have : g.count val = g.length := List.count_eq_length.mpr fun b hb => (hall b hb).symm
  simp [this]

theorem histEqMap_uniform {g : List ℕ} {val total : ℕ} (hall : ∀ u ∈ g, u = val)
    (htot : total = g.length) (hpos : 0 < total) :
    histEqMap g total val = 255 := by
  unfold histEqMap
  rw [cdfAt_all_val hall, ← htot]
  have hne : ((total : ℕ) : ℚ) ≠ 0 := Nat.cast_ne_zero.mpr (by omega)
  rw [div_self hne, one_mul]
  rw [show (255 : ℚ) = ((255 : ℕ) : ℚ) by norm_num, qround_natCast]
  rfl

/-- Third part of C1 (the part the spec gets wrong): histogram equalization
maps a uniform image to the all-255 image, not to itself. -/
theorem histeq_uniform_image (img : Image) (val : ℕ) (hwf : img.WF)
    (huni : ∀ u ∈ img.data, u = val) :
    histogram_equalization img =
      mkImage img.width img.height img.channels fun _ _ _ => 255 := by
  obtain ⟨hw, hh, hc, hlen, hvals⟩ := hwf
  unfold histogram_equalization
  refine mkImage_congr fun x hx y hy ch hch => ?_
  rw [px_uniform hlen huni hx hy hch]
  refine histEqMap_uniform (channelVals_all_uniform hlen huni hch) ?_
    (Nat.mul_pos hw hh)
  rw [length_channelVals, Nat.mul_comm]

/-- C1 (amended): on a uniform-color well-formed image,
`normalize_contrast_minmax` and `normalize_contrast_percentile` (for any
percentile arguments) return the image unchanged, but
`histogram_equalization` returns the all-255 image of the same shape (equal
to the input only when the uniform value is 255). -/
theorem uniform_contrast_spec (img : Image) (val : ℕ) (hwf : img.WF)
    (huni : ∀ u ∈ img.data, u = val) :
    normalize_contrast_minmax img = img ∧
    (∀ pl ph : ℚ, normalize_contrast_percentile img pl ph = img) ∧
    histogram_equalization img =
      mkImage img.width img.height img.channels fun _ _ _ => 255 :=
  ⟨minmax_uniform_image img val hwf huni,
   fun pl ph => percentile_uniform_image img val hwf huni pl ph,
   histeq_uniform_image img val hwf huni⟩

/-- Witness for C1 at the uniform 1×1 image of value 7. -/
theorem uniform_contrast_spec_witness :
    normalize_contrast_minmax ⟨1, 1, 1, [7]⟩ = ⟨1, 1, 1, [7]⟩ ∧
    normalize_contrast_percentile ⟨1, 1, 1, [7]⟩ 2 98 = ⟨1, 1, 1, [7]⟩ ∧
    histogram_equalization ⟨1, 1, 1, [7]⟩ = mkImage 1 1 1 fun _ _ _ => 255 := by
  obtain ⟨h1, h2, h3⟩ := uniform_contrast_spec ⟨1, 1, 1, [7]⟩ 7
    (by unfold Image.WF; refine ⟨by decide, by decide, by decide, by decide, by decide⟩)
    (by decide)
  exact ⟨h1, h2 2 98, h3⟩

/-- C1 counterexample: histogram equalization does NOT return the uniform
image of value 7 unchanged (it returns the all-255 image). -/
theorem uniform_histeq_counterexample :
    histogram_equalization ⟨1, 1, 1, [7]⟩ ≠ ⟨1, 1, 1, [7]⟩ := by
  have h3 := histeq_uniform_image ⟨1, 1, 1, [7]⟩ 7
    (by unfold Image.WF; refine ⟨by decide, by decide, by decide, by decide, by decide⟩)
    (by decide)
  rw [h3]
  decide

/-! ## C2 and C7: the Otsu scan on two-level histograms -/

theorem otsuStep_broke (hist : ℕ → ℕ) (total : ℕ) (S : ℚ) (s : OtsuState) (t : ℕ)
    (h : s.broke = true) : otsuStep hist total S s t = s := by
  unfold otsuStep
  rw [if_pos h]

theorem count_support {g : List ℕ} {a b : ℕ} (hsupp : ∀ v ∈ g, v = a ∨ v = b)
    {t : ℕ} (hta : t ≠ a) (htb : t ≠ b) : g.count t = 0 :=
  List.count_eq_zero.mpr fun htg => by
    rcases hsupp t htg with rfl | rfl
    · exact hta rfl
    · exact htb rfl

theorem length_count_support {g : List ℕ} {a b : ℕ} (hab : a ≠ b)
    (hsupp : ∀ v ∈ g, v = a ∨ v = b) : g.length = g.count a + g.count b := by
  induction g with
  | nil => simp
  | cons hd tl ih =>
    have htl : ∀ v ∈ tl, v = a ∨ v = b := fun v hv => hsupp v (List.mem_cons_of_mem hd hv)
    rcases hsupp hd (List.mem_cons_self hd tl) with rfl | rfl
    · rw [List.count_cons_self, List.count_cons_of_ne (Ne.symm hab)]
      rw [List.length_cons, ih htl]
      omega
    · rw [List.count_cons_self, List.count_cons_of_ne hab]
      rw [List.length_cons, ih htl]
      omega

theorem sum_range_two_support (f : ℕ → ℚ) {a b N : ℕ} (hab : a ≠ b)
    (haN : a < N) (hbN : b < N) (hz : ∀ i, i ≠ a → i ≠ b → f i = 0) :
    ((List.range N).map f).sum = f a + f b := by
  have hbr : ((List.range N).map f).sum = ∑ i ∈ Finset.range N, f i := rfl
  rw [hbr]
  have hsub : ({a, b} : Finset ℕ) ⊆ Finset.range N := by
    intro x hx
    simp only [Finset.mem_insert, Finset.mem_singleton] at hx
    rcases hx with rfl | rfl <;> simp [haN, hbN]
  rw [← Finset.sum_subset hsub fun x _ hx => ?_]
  · exact Finset.sum_pair hab
  · simp only [Finset.mem_insert, Finset.mem_singleton] at hx
    push_neg at hx
    exact hz x hx.1 hx.2

theorem otsuStep_skip_empty (hist : ℕ → ℕ) (total : ℕ) (S : ℚ) {t : ℕ}
    (hz : hist t = 0) :
    otsuStep hist total S ⟨0, 0, 0, 0, false⟩ t = ⟨0, 0, 0, 0, false⟩ := by
  simp [otsuStep, hz]

theorem otsuStep_first {hist : ℕ → ℕ} {total a b p q : ℕ} {S : ℚ}
    (hp : 0 < p) (hq : 0 < q) (hha : hist a = p) (htot : total = p + q)
    (hS : S = (a : ℚ) * p + (b : ℚ) * q) (hab : (a : ℚ) ≠ (b : ℚ)) :
    otsuStep hist total S ⟨0, 0, 0, 0, false⟩ a =
      ⟨p, (a : ℚ) * p, (p : ℚ) * q * (((a : ℚ) - b) * ((a : ℚ) - b)), a, false⟩ := by
  have hpq : (p : ℚ) ≠ 0 := Nat.cast_ne_zero.mpr (by omega)
  have hqq : (q : ℚ) ≠ 0 := Nat.cast_ne_zero.mpr (by omega)
  have hwf : total - (0 + p) = q := by omega
  simp only [otsuStep, hha, htot]
  norm_num
  rw [if_neg (show ¬ p = 0 by omega), if_neg (show ¬ q = 0 by omega)]
  have hmb : (a : ℚ) * p / p = (a : ℚ) := by field_simp
  have hmf : (S - (a : ℚ) * p) / q = (b : ℚ) := by
    rw [hS]; field_simp
  rw [hmb, hmf]
  have hvar : (0 : ℚ) < (p : ℚ) * q * (((a : ℚ) - b) * ((a : ℚ) - b)) := by
    have h1 : (0 : ℚ) < (p : ℚ) := by positivity
    have h2 : (0 : ℚ) < (q : ℚ) := by positivity
    have h3 : (0 : ℚ) < ((a : ℚ) - b) * ((a : ℚ) - b) :=
      mul_self_pos.mpr (sub_ne_zero.mpr hab)
    positivity
  rw [if_pos hvar]

theorem otsuStep_mid {hist : ℕ → ℕ} {total a b p q t : ℕ} {S : ℚ}
    (hp : 0 < p) (hq : 0 < q) (hz : hist t = 0) (htot : total = p + q)
    (hS : S = (a : ℚ) * p + (b : ℚ) * q) :
    otsuStep hist total S
      ⟨p, (a : ℚ) * p, (p : ℚ) * q * (((a : ℚ) - b) * ((a : ℚ) - b)), a, false⟩ t =
      ⟨p, (a : ℚ) * p, (p : ℚ) * q * (((a : ℚ) - b) * ((a : ℚ) - b)), a, false⟩ := by
  simp only [otsuStep, hz, htot]
  norm_num
  intro hp0
  rw [if_neg (show ¬ q = 0 by omega)]
  have hmb : (a : ℚ) * p / p = (a : ℚ) := by
    field_simp
  have hmf : (S - (a : ℚ) * p) / q = (b : ℚ) := by
    rw [hS]; field_simp
  rw [hmb, hmf]
  rw [if_neg (lt_irrefl _)]

theorem otsuStep_last {hist : ℕ → ℕ} {total a b p q : ℕ} {S : ℚ}
    (hp : 0 < p) (hhb : hist b = q) (htot : total = p + q) :
    otsuStep hist total S
      ⟨p, (a : ℚ) * p, (p : ℚ) * q * (((a : ℚ) - b) * ((a : ℚ) - b)), a, false⟩ b =
      ⟨p + q, (a : ℚ) * p, (p : ℚ) * q * (((a : ℚ) - b) * ((a : ℚ) - b)), a, true⟩ := by
  simp only [otsuStep, hhb, htot]
  norm_num
  omega

/-- On a histogram supported on exactly `{a, b}` (`a < b ≤ 255`, both
classes nonempty) the Otsu scan returns `a`: the between-class variance is
identical for every candidate threshold in `[a, b)`, and the ascending scan
with strict `>` keeps the first one. -/
theorem otsu_fold_two_level {g : List ℕ} {a b : ℕ} (hab : a < b) (hb255 : b ≤ 255)
    (hsupp : ∀ v ∈ g, v = a ∨ v = b) (hpa : 0 < g.count a) (hpb : 0 < g.count b)
    {total : ℕ} (htot : total = g.length) :
    ((List.range 256).foldl
      (otsuStep (fun i => g.count i) total
        (((List.range 256).map fun (i : ℕ) => (i : ℚ) * ((g.count i : ℕ) : ℚ)).sum))
      ⟨0, 0, 0, 0, false⟩).optimal_threshold = a := by
  have habne : a ≠ b := Nat.ne_of_lt hab
  have habQ : (a : ℚ) ≠ (b : ℚ) := by exact_mod_cast habne
  have htot' : total = g.count a + g.count b := by
    rw [htot]; exact length_count_support habne hsupp
  have hS : (((List.range 256).map fun (i : ℕ) => (i : ℚ) * ((g.count i : ℕ) : ℚ)).sum) =
      (a : ℚ) * (g.count a) + (b : ℚ) * (g.count b) := by
    apply sum_range_two_support _ habne (by omega) (by omega)
    intro i hia hib
    rw [count_support hsupp hia hib]
    norm_num
  have hd1 : List.range' 0 a ++ List.range' a 1 = List.range' 0 (1 + a) := by
    have h := List.range'_append 0 a 1 1
    simpa using h
  have hd2 : List.range' 0 (1 + a) ++ List.range' (1 + a) (b - a - 1) =
      List.range' 0 b := by
    have h := List.range'_append 0 (1 + a) (b - a - 1) 1
    simp only [Nat.one_mul, Nat.zero_add] at h
    rw [h, show b - a - 1 + (1 + a) = b by omega]
  have hd3 : List.range' 0 b ++ List.range' b 1 = List.range' 0 (1 + b) := by
    have h := List.range'_append 0 b 1 1
    simpa using h
  have hd4 : List.range' 0 (1 + b) ++ List.range' (1 + b) (255 - b) =
      List.range' 0 256 := by
    have h := List.range'_append 0 (1 + b) (255 - b) 1
    simp only [Nat.one_mul, Nat.zero_add] at h
    rw [h, show 255 - b + (1 + b) = 256 by omega]
  have hsplit : List.range 256 =
      (((List.range' 0 a ++ List.range' a 1) ++ List.range' (1 + a) (b - a - 1)) ++
        List.range' b 1) ++ List.range' (1 + b) (255 - b) := by
    rw [List.range_eq_range']
    rw [hd1, hd2, hd3, hd4]
  set hist : ℕ → ℕ := fun i => g.count i with hhist
  set S : ℚ := ((List.range 256).map fun (i : ℕ) => (i : ℚ) * ((g.count i : ℕ) : ℚ)).sum
    with hSdef
  have f0 : (List.range' 0 a).foldl (otsuStep hist total S) ⟨0, 0, 0, 0, false⟩ =
      ⟨0, 0, 0, 0, false⟩ := by
    refine foldl_eq_self _ _ _ fun t ht => ?_
    obtain ⟨i, hi, rfl⟩ := List.mem_range'.mp ht
    exact otsuStep_skip_empty hist total S
      (count_support hsupp (by omega) (by omega))
  have f2 : (List.range' (1 + a) (b - a - 1)).foldl (otsuStep hist total S)
      ⟨g.count a, (a : ℚ) * (g.count a),
        ((g.count a : ℕ) : ℚ) * ((g.count b : ℕ) : ℚ) *
          (((a : ℚ) - b) * ((a : ℚ) - b)), a, false⟩ =
      ⟨g.count a, (a : ℚ) * (g.count a),
        ((g.count a : ℕ) : ℚ) * ((g.count b : ℕ) : ℚ) *
          (((a : ℚ) - b) * ((a : ℚ) - b)), a, false⟩ := by
    refine foldl_eq_self _ _ _ fun t ht => ?_
    obtain ⟨i, hi, rfl⟩ := List.mem_range'.mp ht
    exact otsuStep_mid hpa hpb (count_support hsupp (by omega) (by omega)) htot' hS
  have f4 : (List.range' (1 + b) (255 - b)).foldl (otsuStep hist total S)
      ⟨g.count a + g.count b, (a : ℚ) * (g.count a),
        ((g.count a : ℕ) : ℚ) * ((g.count b : ℕ) : ℚ) *
          (((a : ℚ) - b) * ((a : ℚ) - b)), a, true⟩ =
      ⟨g.count a + g.count b, (a : ℚ) * (g.count a),
        ((g.count a : ℕ) : ℚ) * ((g.count b : ℕ) : ℚ) *
          (((a : ℚ) - b) * ((a : ℚ) - b)), a, true⟩ := by
    refine foldl_eq_self _ _ _ fun t ht => ?_
    exact otsuStep_broke hist total S _ t rfl
  rw [hsplit, List.foldl_append, List.foldl_append, List.foldl_append,
    List.foldl_append, f0, List.range'_one, List.foldl_cons, List.foldl_nil]
  rw [otsuStep_first (a := a) (b := b) (p := g.count a) (q := g.count b)
    hpa hpb rfl htot' hS habQ]
  rw [f2]
  rw [List.range'_one, List.foldl_cons, List.foldl_nil]
  rw [otsuStep_last (a := a) (b := b) (p := g.count a) (q := g.count b)
    hpa rfl htot']
  rw [f4]

/-- Running `calculate_otsu_threshold` on a single-channel image whose pixels take
exactly the two values `a < b ≤ 255` returns `a`. -/
theorem calculate_otsu_two_level (img : Image) {a b : ℕ} (hch : img.channels = 1)
    (hall : ∀ v ∈ channelVals img 0, v = a ∨ v = b)
    (hpa : 0 < (channelVals img 0).count a) (hpb : 0 < (channelVals img 0).count b)
    (hab : a < b) (hb255 : b ≤ 255) :
    calculate_otsu_threshold img = a := by
  unfold calculate_otsu_threshold
  dsimp only
  rw [if_pos hch]
  refine otsu_fold_two_level hab hb255 hall hpa hpb ?_
  rw [length_channelVals, Nat.mul_comm]

/-- C2 (amended): on every single-channel image whose pixels are evenly
split between the values 50 and 200, `calculate_otsu_threshold` returns
exactly 50 — the smaller value, not a threshold strictly between them. -/
theorem otsu_even_split_spec (img : Image) (hch : img.channels = 1)
    (hall : ∀ v ∈ channelVals img 0, v = 50 ∨ v = 200)
    (heven : (channelVals img 0).count 50 = (channelVals img 0).count 200)
    (hpos : 0 < (channelVals img 0).count 50) :
    calculate_otsu_threshold img = 50 :=
  calculate_otsu_two_level img hch hall hpos (heven ▸ hpos) (by omega) (by omega)

/-- Witness for C2 at the two-pixel image `[50, 200]`. -/
theorem otsu_even_split_spec_witness :
    calculate_otsu_threshold ⟨2, 1, 1, [50, 200]⟩ = 50 :=
  otsu_even_split_spec ⟨2, 1, 1, [50, 200]⟩ rfl (by decide) (by decide) (by decide)

/-- C2 counterexample: on the two-pixel image `[50, 200]` the returned
threshold is not strictly between 50 and 200 (it is exactly 50). -/
theorem otsu_even_split_counterexample :
    ¬(50 < calculate_otsu_threshold ⟨2, 1, 1, [50, 200]⟩ ∧
      calculate_otsu_threshold ⟨2, 1, 1, [50, 200]⟩ < 200) := by
  have h : calculate_otsu_threshold ⟨2, 1, 1, [50, 200]⟩ = 50 :=
    calculate_otsu_two_level ⟨2, 1, 1, [50, 200]⟩ (a := 50) (b := 200) rfl
      (by decide) (by decide) (by decide) (by omega) (by omega)
  rw [h]
  omega

/-- C7: on the two-level image `[0, 255]` the code returns threshold 0, and
binarizing with it (`pixel >= 0 ↦ 255`) maps BOTH the 0-pixel and the
255-pixel to 255 — the two classes are not separated. -/
theorem otsu_binary_no_separation :
    calculate_otsu_threshold ⟨2, 1, 1, [0, 255]⟩ = 0 ∧
    threshold_otsu ⟨2, 1, 1, [0, 255]⟩ = ⟨2, 1, 1, [255, 255]⟩ := by
  have h : calculate_otsu_threshold ⟨2, 1, 1, [0, 255]⟩ = 0 :=
    calculate_otsu_two_level ⟨2, 1, 1, [0, 255]⟩ (a := 0) (b := 255) rfl
      (by decide) (by decide) (by decide) (by omega) (by omega)
  refine ⟨h, ?_⟩
  unfold threshold_otsu
  rw [h]
  decide

theorem msgSteps_stageOriginal (cfg : PipelineConfig) : MsgSteps (stageOriginal cfg) := by
  intro st
  unfold stageOriginal pushStep
  dsimp only
  repeat' split
  all_goals refine ⟨rfl, ?_, ?_⟩ <;>
    first
      | exact ⟨[], List.append_nil _⟩
      | exact ⟨_, rfl⟩

theorem msgSteps_stageGray (S : Stages) (cfg : PipelineConfig) :
    MsgSteps (stageGray S cfg) := by
  intro st
  unfold stageGray pushStep
  dsimp only
  repeat' split
  all_goals refine ⟨rfl, ?_, ?_⟩ <;>
    first
      | exact ⟨[], List.append_nil _⟩
      | exact ⟨_, rfl⟩

theorem msgSteps_stageDeskew (S : Stages) (cfg : PipelineConfig) :
    MsgSteps (stageDeskew S cfg) := by
  intro st
  unfold stageDeskew pushStep
  dsimp only
  repeat' split
  all_goals refine ⟨rfl, ?_, ?_⟩ <;>
    first
      | exact ⟨[], List.append_nil _⟩
      | exact ⟨_, rfl⟩

theorem msgSteps_stageNoise (S : Stages) (cfg : PipelineConfig) :
    MsgSteps (stageNoise S cfg) := by
  intro st
  unfold stageNoise pushStep
  dsimp only
  repeat' split
  all_goals refine ⟨rfl, ?_, ?_⟩ <;>
    first
      | exact ⟨[], List.append_nil _⟩
      | exact ⟨_, rfl⟩

theorem msgSteps_stageContrast (S : Stages) (cfg : PipelineConfig) :
    MsgSteps (stageContrast S cfg) := by
  intro st
  unfold stageContrast pushStep
  dsimp only
  repeat' split
  all_goals refine ⟨rfl, ?_, ?_⟩ <;>
    first
      | exact ⟨[], List.append_nil _⟩
      | exact ⟨_, rfl⟩

theorem msgSteps_stageResize (S : Stages) (cfg : PipelineConfig) :
    MsgSteps (stageResize S cfg) := by
  intro st
  unfold stageResize pushStep
  dsimp only
  repeat' split
  all_goals refine ⟨rfl, ?_, ?_⟩ <;>
    first
      | exact ⟨[], List.append_nil _⟩
      | exact ⟨_, rfl⟩

theorem msgSteps_stageThreshold (S : Stages) (cfg : PipelineConfig) :
    MsgSteps (stageThreshold S cfg) := by
  intro st
  unfold stageThreshold pushStep
  dsimp only
  repeat' split
  all_goals refine ⟨rfl, ?_, ?_⟩ <;>
    first
      | exact ⟨[], List.append_nil _⟩
      | exact ⟨_, rfl⟩

theorem skewPres_stageNoise (S : Stages) (cfg : PipelineConfig) :
    SkewPres (stageNoise S cfg) := by
  intro st
  unfold stageNoise pushStep
  dsimp only
  repeat' split
  all_goals rfl

theorem skewPres_stageContrast (S : Stages) (cfg : PipelineConfig) :
    SkewPres (stageContrast S cfg) := by
  intro st
  unfold stageContrast pushStep
  dsimp only
  repeat' split
  all_goals rfl

theorem skewPres_stageResize (S : Stages) (cfg : PipelineConfig) :
    SkewPres (stageResize S cfg) := by
  intro st
  unfold stageResize pushStep
  dsimp only
  repeat' split
  all_goals rfl

theorem skewPres_stageThreshold (S : Stages) (cfg : PipelineConfig) :
    SkewPres (stageThreshold S cfg) := by
  intro st
  unfold stageThreshold pushStep
  dsimp only
  repeat' split
  all_goals rfl

theorem pgo_msg {r : PState × Option String} {B : PState → PState × Option String}
    (hB : MsgSteps B) :
    (pgo r B).1.res.error_message = r.1.res.error_message ∧
    r.1.res.intermediate_steps <+: (pgo r B).1.res.intermediate_steps ∧
    r.1.res.step_names <+: (pgo r B).1.res.step_names := by
  obtain ⟨st, e⟩ := r
  cases e with
  | none => exact hB st
  | some e => exact ⟨rfl, ⟨[], List.append_nil _⟩, ⟨[], List.append_nil _⟩⟩

theorem pgo_skew {r : PState × Option String} {B : PState → PState × Option String}
    (hB : SkewPres B) :
    (pgo r B).1.res.detected_skew_angle = r.1.res.detected_skew_angle := by
  obtain ⟨st, e⟩ := r
  cases e with
  | none => exact hB st
  | some e => rfl

theorem pgo_of_none {r : PState × Option String} {B : PState → PState × Option String}
    (h : r.2 = none) : pgo r B = B r.1 := by
  obtain ⟨st, e⟩ := r
  cases e with
  | none => rfl
  | some e => simp at h

theorem process_of_none {S : Stages} {img : Image} {cfg : PipelineConfig}
    (h : (runStages S cfg img).2 = none) :
    process_for_ocr S img cfg =
      { (runStages S cfg img).1.res with
        final_image := (runStages S cfg img).1.current, success := true } := by
  unfold process_for_ocr
  rcases hr : runStages S cfg img with ⟨st, e⟩
  rw [hr] at h
  cases e with
  | none => rfl
  | some e => simp at h

theorem process_of_some {S : Stages} {img : Image} {cfg : PipelineConfig} {e : String}
    (h : (runStages S cfg img).2 = some e) :
    process_for_ocr S img cfg =
      { (runStages S cfg img).1.res with success := false, error_message := e } := by
  unfold process_for_ocr
  rcases hr : runStages S cfg img with ⟨st, e'⟩
  rw [hr] at h
  cases e' with
  | none => simp at h
  | some e' =>
    simp only [Option.some.injEq] at h
    rw [h]

theorem runStages_accum (S : Stages) (cfg : PipelineConfig) (img : Image) :
    (runStages S cfg img).1.res.error_message = "" ∧
    (stageOriginal cfg ⟨img, initResult⟩).1.res.intermediate_steps <+:
      (runStages S cfg img).1.res.intermediate_steps ∧
    (stageOriginal cfg ⟨img, initResult⟩).1.res.step_names <+:
      (runStages S cfg img).1.res.step_names := by
  have pgo_msg_acc : ∀ {r : PState × Option String}
      {B : PState → PState × Option String} {L1 : List Image} {L2 : List String},
      MsgSteps B → r.1.res.error_message = "" →
      L1 <+: r.1.res.intermediate_steps → L2 <+: r.1.res.step_names →
      (pgo r B).1.res.error_message = "" ∧
      L1 <+: (pgo r B).1.res.intermediate_steps ∧
      L2 <+: (pgo r B).1.res.step_names := by
    intro r B L1 L2 hB hmsg hsteps hnames
    obtain ⟨m, s, n⟩ := pgo_msg hB
    exact ⟨m.trans hmsg, hsteps.trans s, hnames.trans n⟩
  unfold runStages
  have h0 : (stageOriginal cfg ⟨img, initResult⟩).1.res.error_message = "" :=
    (msgSteps_stageOriginal cfg ⟨img, initResult⟩).1
  have h1 := pgo_msg_acc (msgSteps_stageGray S cfg) h0 ⟨[], List.append_nil _⟩ ⟨[], List.append_nil _⟩
  have h2 := pgo_msg_acc (msgSteps_stageDeskew S cfg) h1.1 h1.2.1 h1.2.2
  have h3 := pgo_msg_acc (msgSteps_stageNoise S cfg) h2.1 h2.2.1 h2.2.2
  have h4 := pgo_msg_acc (msgSteps_stageContrast S cfg) h3.1 h3.2.1 h3.2.2
  have h5 := pgo_msg_acc (msgSteps_stageResize S cfg) h4.1 h4.2.1 h4.2.2
  exact pgo_msg_acc (msgSteps_stageThreshold S cfg) h5.1 h5.2.1 h5.2.2

/-- C4: `process_for_ocr` is a total function of its inputs (no exception
escapes); any stage error is caught at the orchestrator boundary and turned
into a result with `success = false` carrying that stage's message, and a
run in which no stage errs returns `success = true` with an empty message. -/
theorem pipeline_error_policy (S : Stages) (img : Image) (cfg : PipelineConfig) :
    ((runStages S cfg img).2 = none →
      (process_for_ocr S img cfg).success = true ∧
      (process_for_ocr S img cfg).error_message = "") ∧
    ∀ e, (runStages S cfg img).2 = some e →
      (process_for_ocr S img cfg).success = false ∧
      (process_for_ocr S img cfg).error_message = e := by
  constructor
  · intro hnone
    rw [process_of_none hnone]
    exact ⟨rfl, (runStages_accum S cfg img).1⟩
  · intro e he
    rw [process_of_some he]
    exact ⟨rfl, rfl⟩

/-- Witness for C4: a throwing grayscale stage on a 3-channel pixel is
caught and reported; an error-free run reports success. -/
theorem pipeline_error_policy_witness :
    ((process_for_ocr boomStages ⟨1, 1, 3, [9, 9, 9]⟩ {}).success = false ∧
      (process_for_ocr boomStages ⟨1, 1, 3, [9, 9, 9]⟩ {}).error_message = "boom") ∧
    ((process_for_ocr (realStages (fun _ => 0) (fun _ => 0)) ⟨1, 1, 1, [5]⟩
        { enable_deskewing := false, enable_noise_reduction := false,
          enable_contrast_enhancement := false, enable_resizing := false,
          enable_thresholding := false }).success = true ∧
      (process_for_ocr (realStages (fun _ => 0) (fun _ => 0)) ⟨1, 1, 1, [5]⟩
        { enable_deskewing := false, enable_noise_reduction := false,
          enable_contrast_enhancement := false, enable_resizing := false,
          enable_thresholding := false }).error_message = "") :=
  ⟨(pipeline_error_policy boomStages ⟨1, 1, 3, [9, 9, 9]⟩ {}).2 "boom" rfl,
   (pipeline_error_policy (realStages (fun _ => 0) (fun _ => 0)) ⟨1, 1, 1, [5]⟩
      { enable_deskewing := false, enable_noise_reduction := false,
        enable_contrast_enhancement := false, enable_resizing := false,
        enable_thresholding := false }).1 rfl⟩

theorem process_lists (S : Stages) (img : Image) (cfg : PipelineConfig) :
    (process_for_ocr S img cfg).intermediate_steps =
      (runStages S cfg img).1.res.intermediate_steps ∧
    (process_for_ocr S img cfg).step_names = (runStages S cfg img).1.res.step_names := by
  rcases he : (runStages S cfg img).2 with _ | e
  · rw [process_of_none he]; exact ⟨rfl, rfl⟩
  · rw [process_of_some he]; exact ⟨rfl, rfl⟩

/-- C10: with `save_intermediate_steps` set, the unmodified input image is
recorded first, labeled `"00_original"`, before any stage runs — so the
intermediate list is non-empty whatever the stage toggles are. -/
theorem pipeline_records_original (fcos fsin : ℚ → ℚ) (img : Image)
    (cfg : PipelineConfig) (hsave : cfg.save_intermediate_steps = true) :
    (process_for_ocr (realStages fcos fsin) img cfg).intermediate_steps.head? =
      some img ∧
    (process_for_ocr (realStages fcos fsin) img cfg).step_names.head? =
      some "00_original" := by
  have hpush : stageOriginal cfg ⟨img, initResult⟩ =
      (pushStep ⟨img, initResult⟩ "00_original", none) := by
    unfold stageOriginal
    rw [if_pos hsave]
  obtain ⟨_, hs, hn⟩ := runStages_accum (realStages fcos fsin) cfg img
  rw [hpush] at hs hn
  obtain ⟨t1, ht1⟩ := hs
  obtain ⟨t2, ht2⟩ := hn
  obtain ⟨hp1, hp2⟩ := process_lists (realStages fcos fsin) img cfg
  rw [hp1, ← ht1, hp2, ← ht2]
  exact ⟨rfl, rfl⟩

/-- Witness for C10 with a concrete image and a save-enabled, all-disabled
configuration. -/
theorem pipeline_records_original_witness :
    (process_for_ocr (realStages (fun _ => 0) (fun _ => 0)) ⟨1, 1, 1, [5]⟩
        { enable_deskewing := false, enable_noise_reduction := false,
          enable_contrast_enhancement := false, enable_resizing := false,
          enable_thresholding := false,
          save_intermediate_steps := true }).intermediate_steps.head? =
      some ⟨1, 1, 1, [5]⟩ ∧
    (process_for_ocr (realStages (fun _ => 0) (fun _ => 0)) ⟨1, 1, 1, [5]⟩
        { enable_deskewing := false, enable_noise_reduction := false,
          enable_contrast_enhancement := false, enable_resizing := false,
          enable_thresholding := false,
          save_intermediate_steps := true }).step_names.head? = some "00_original" :=
  pipeline_records_original (fun _ => 0) (fun _ => 0) ⟨1, 1, 1, [5]⟩
    { enable_deskewing := false, enable_noise_reduction := false,
      enable_contrast_enhancement := false, enable_resizing := false,
      enable_thresholding := false, save_intermediate_steps := true } rfl

theorem stageOriginal_snd (cfg : PipelineConfig) (st : PState) :
    (stageOriginal cfg st).2 = none := rfl

theorem stageOriginal_current (cfg : PipelineConfig) (st : PState) :
    (stageOriginal cfg st).1.current = st.current := by
  unfold stageOriginal pushStep
  dsimp only
  split <;> rfl

theorem stageGray_real_snd (fcos fsin : ℚ → ℚ) (cfg : PipelineConfig) (st : PState) :
    (stageGray (realStages fcos fsin) cfg st).2 = none := by
  unfold stageGray realStages
  dsimp only
  repeat' split
  all_goals rfl

theorem stageGray_real_current (fcos fsin : ℚ → ℚ) (cfg : PipelineConfig) (st : PState) :
    (stageGray (realStages fcos fsin) cfg st).1.current =
      if 1 < st.current.channels then to_grayscale_luminance st.current
      else st.current := by
  unfold stageGray realStages
  dsimp only
  split
  case isTrue h =>
    split <;> rfl
  case isFalse h =>
    rfl

theorem stageDeskew_disabled {S : Stages} {cfg : PipelineConfig}
    (h : cfg.enable_deskewing = false) (st : PState) :
    stageDeskew S cfg st = (st, none) := by
  unfold stageDeskew
  rw [if_neg (by rw [h]; exact Bool.false_ne_true)]

theorem stageNoise_disabled {S : Stages} {cfg : PipelineConfig}
    (h : cfg.enable_noise_reduction = false) (st : PState) :
    stageNoise S cfg st = (st, none) := by
  unfold stageNoise
  rw [if_neg (by rw [h]; exact Bool.false_ne_true)]

theorem stageContrast_disabled {S : Stages} {cfg : PipelineConfig}
    (h : cfg.enable_contrast_enhancement = false) (st : PState) :
    stageContrast S cfg st = (st, none) := by
  unfold stageContrast
  rw [if_neg (by rw [h]; exact Bool.false_ne_true)]

theorem stageResize_disabled {S : Stages} {cfg : PipelineConfig}
    (h : cfg.enable_resizing = false) (st : PState) :
    stageResize S cfg st = (st, none) := by
  unfold stageResize
  rw [if_neg (by rw [h]; exact Bool.false_ne_true)]

theorem stageThreshold_disabled {S : Stages} {cfg : PipelineConfig}
    (h : cfg.enable_thresholding = false) (st : PState) :
    stageThreshold S cfg st = (st, none) := by
  unfold stageThreshold
  rw [if_neg (by rw [h]; exact Bool.false_ne_true)]

theorem pgo_pair (st : PState) (B : PState → PState × Option String) :
    pgo (st, none) B = B st := rfl

/-- C3: with every optional stage disabled the pipeline reports success and
returns the input unchanged, except for the mandatory grayscale conversion
of a multi-channel input. -/
theorem pipeline_disabled_spec (fcos fsin : ℚ → ℚ) (img : Image)
    (cfg : PipelineConfig)
    (h1 : cfg.enable_deskewing = false) (h2 : cfg.enable_noise_reduction = false)
    (h3 : cfg.enable_contrast_enhancement = false) (h4 : cfg.enable_resizing = false)
    (h5 : cfg.enable_thresholding = false) :
    (process_for_ocr (realStages fcos fsin) img cfg).success = true ∧
    (process_for_ocr (realStages fcos fsin) img cfg).final_image =
      (if 1 < img.channels then to_grayscale_luminance img else img) := by
  have hrun : runStages (realStages fcos fsin) cfg img =
      ((stageGray (realStages fcos fsin) cfg
        (stageOriginal cfg ⟨img, initResult⟩).1).1, none) := by
    unfold runStages
    rw [pgo_of_none (stageOriginal_snd cfg _)]
    rw [pgo_of_none (stageGray_real_snd fcos fsin cfg _)]
    rw [stageDeskew_disabled h1, pgo_pair, stageNoise_disabled h2, pgo_pair,
      stageContrast_disabled h3, pgo_pair, stageResize_disabled h4, pgo_pair,
      stageThreshold_disabled h5]
  rw [process_of_none (by rw [hrun])]
  refine ⟨rfl, ?_⟩
  show (runStages (realStages fcos fsin) cfg img).1.current = _
  rw [hrun]
  show (stageGray (realStages fcos fsin) cfg
    (stageOriginal cfg ⟨img, initResult⟩).1).1.current = _
  rw [stageGray_real_current, stageOriginal_current]

/-- Witness for C3 at a concrete 3-channel pixel and single-channel pixel. -/
theorem pipeline_disabled_spec_witness :
    ((process_for_ocr (realStages (fun _ => 0) (fun _ => 0)) ⟨1, 1, 3, [1, 2, 3]⟩
        { enable_deskewing := false, enable_noise_reduction := false,
          enable_contrast_enhancement := false, enable_resizing := false,
          enable_thresholding := false }).success = true ∧
      (process_for_ocr (realStages (fun _ => 0) (fun _ => 0)) ⟨1, 1, 3, [1, 2, 3]⟩
        { enable_deskewing := false, enable_noise_reduction := false,
          enable_contrast_enhancement := false, enable_resizing := false,
          enable_thresholding := false }).final_image =
        (if 1 < (⟨1, 1, 3, [1, 2, 3]⟩ : Image).channels then
          to_grayscale_luminance ⟨1, 1, 3, [1, 2, 3]⟩ else ⟨1, 1, 3, [1, 2, 3]⟩)) ∧
    ((process_for_ocr (realStages (fun _ => 0) (fun _ => 0)) ⟨1, 1, 1, [5]⟩
        { enable_deskewing := false, enable_noise_reduction := false,
          enable_contrast_enhancement := false, enable_resizing := false,
          enable_thresholding := false }).success = true ∧
      (process_for_ocr (realStages (fun _ => 0) (fun _ => 0)) ⟨1, 1, 1, [5]⟩
        { enable_deskewing := false, enable_noise_reduction := false,
          enable_contrast_enhancement := false, enable_resizing := false,
          enable_thresholding := false }).final_image =
        (if 1 < (⟨1, 1, 1, [5]⟩ : Image).channels then
          to_grayscale_luminance ⟨1, 1, 1, [5]⟩ else ⟨1, 1, 1, [5]⟩)) :=
  ⟨pipeline_disabled_spec (fun _ => 0) (fun _ => 0) ⟨1, 1, 3, [1, 2, 3]⟩
      { enable_deskewing := false, enable_noise_reduction := false,
        enable_contrast_enhancement := false, enable_resizing := false,
        enable_thresholding := false } rfl rfl rfl rfl rfl,
   pipeline_disabled_spec (fun _ => 0) (fun _ => 0) ⟨1, 1, 1, [5]⟩
      { enable_deskewing := false, enable_noise_reduction := false,
        enable_contrast_enhancement := false, enable_resizing := false,
        enable_thresholding := false } rfl rfl rfl rfl rfl⟩

theorem stageDeskew_real (fcos fsin : ℚ → ℚ) (cfg : PipelineConfig) (st : PState)
    (hd : cfg.enable_deskewing = true) :
    (stageDeskew (realStages fcos fsin) cfg st).1.res.detected_skew_angle =
      estimate_skew_angle_projection fcos fsin st.current (-cfg.max_skew_angle)
        cfg.max_skew_angle ∧
    (stageDeskew (realStages fcos fsin) cfg st).1.current =
      (if 0.5 < |estimate_skew_angle_projection fcos fsin st.current
          (-cfg.max_skew_angle) cfg.max_skew_angle| then
        deskew fcos fsin st.current
          (estimate_skew_angle_projection fcos fsin st.current
            (-cfg.max_skew_angle) cfg.max_skew_angle)
      else st.current) ∧
    (stageDeskew (realStages fcos fsin) cfg st).2 = none := by
  unfold stageDeskew realStages
  dsimp only
  rw [if_pos hd]
  split
  case isTrue h =>
    split
    · exact ⟨rfl, rfl, rfl⟩
    · exact ⟨rfl, rfl, rfl⟩
  case isFalse h =>
    exact ⟨rfl, rfl, rfl⟩

theorem process_detected (S : Stages) (img : Image) (cfg : PipelineConfig) :
    (process_for_ocr S img cfg).detected_skew_angle =
      (runStages S cfg img).1.res.detected_skew_angle := by
  rcases he : (runStages S cfg img).2 with _ | e
  · rw [process_of_none he]
  · rw [process_of_some he]

/-- C5: with deskewing enabled the pipeline records the projection-method
estimate over ±max_skew_angle in `detected_skew_angle` unconditionally, and
the deskew stage replaces the working image by the deskewed one iff the
estimate's magnitude exceeds 0.5°, leaving it unchanged otherwise. -/
theorem deskew_stage_spec (fcos fsin : ℚ → ℚ) (img : Image) (cfg : PipelineConfig)
    (hd : cfg.enable_deskewing = true) :
    (process_for_ocr (realStages fcos fsin) img cfg).detected_skew_angle =
      estimate_skew_angle_projection fcos fsin
        (if 1 < img.channels then to_grayscale_luminance img else img)
        (-cfg.max_skew_angle) cfg.max_skew_angle ∧
    ∀ st : PState,
      (stageDeskew (realStages fcos fsin) cfg st).1.res.detected_skew_angle =
        estimate_skew_angle_projection fcos fsin st.current (-cfg.max_skew_angle)
          cfg.max_skew_angle ∧
      (stageDeskew (realStages fcos fsin) cfg st).1.current =
        (if 0.5 < |estimate_skew_angle_projection fcos fsin st.current
            (-cfg.max_skew_angle) cfg.max_skew_angle| then
          deskew fcos fsin st.current
            (estimate_skew_angle_projection fcos fsin st.current
              (-cfg.max_skew_angle) cfg.max_skew_angle)
        else st.current) := by
  refine ⟨?_, fun st => ⟨(stageDeskew_real fcos fsin cfg st hd).1,
    (stageDeskew_real fcos fsin cfg st hd).2.1⟩⟩
  rw [process_detected]
  unfold runStages
  rw [pgo_of_none (stageOriginal_snd cfg _)]
  rw [pgo_of_none (stageGray_real_snd fcos fsin cfg _)]
  rw [pgo_skew (skewPres_stageThreshold _ _)]
  rw [pgo_skew (skewPres_stageResize _ _)]
  rw [pgo_skew (skewPres_stageContrast _ _)]
  rw [pgo_skew (skewPres_stageNoise _ _)]
  rw [(stageDeskew_real fcos fsin cfg _ hd).1]
  rw [stageGray_real_current, stageOriginal_current]

/-- Witness for C5 at a concrete image and the default configuration. -/
theorem deskew_stage_spec_witness :
    (process_for_ocr (realStages (fun _ => 0) (fun _ => 1)) ⟨1, 1, 1, [5]⟩
        {}).detected_skew_angle =
      estimate_skew_angle_projection (fun _ => 0) (fun _ => 1)
        (if 1 < (⟨1, 1, 1, [5]⟩ : Image).channels then
          to_grayscale_luminance ⟨1, 1, 1, [5]⟩ else ⟨1, 1, 1, [5]⟩)
        (-PipelineConfig.max_skew_angle {}) (PipelineConfig.max_skew_angle {}) ∧
    ∀ st : PState,
      (stageDeskew (realStages (fun _ => 0) (fun _ => 1)) {} st).1.res.detected_skew_angle =
        estimate_skew_angle_projection (fun _ => 0) (fun _ => 1) st.current
          (-PipelineConfig.max_skew_angle {}) (PipelineConfig.max_skew_angle {}) ∧
      (stageDeskew (realStages (fun _ => 0) (fun _ => 1)) {} st).1.current =
        (if 0.5 < |estimate_skew_angle_projection (fun _ => 0) (fun _ => 1) st.current
            (-PipelineConfig.max_skew_angle {}) (PipelineConfig.max_skew_angle {})| then
          deskew (fun _ => 0) (fun _ => 1) st.current
            (estimate_skew_angle_projection (fun _ => 0) (fun _ => 1) st.current
              (-PipelineConfig.max_skew_angle {}) (PipelineConfig.max_skew_angle {}))
        else st.current) :=
  deskew_stage_spec (fun _ => 0) (fun _ => 1) ⟨1, 1, 1, [5]⟩ {} rfl

end BillBox
